import Mathlib

/-!
Verification of the Finddit idea-clustering engine (a TypeScript code base)
against its natural-language specification.  The TypeScript sources are
shallowly embedded: JS strings become lists of characters, JS `Map`s become
association lists that preserve insertion order, JS numbers become exact
rationals (`ℚ`) where the source only performs field arithmetic, and real
numbers (`ℝ`) where the source uses `Math.exp` / `Math.log1p`.
-/

/-- JavaScript strings are modelled as lists of characters (UTF-16 code
units; all data handled by the engine is ASCII). -/
abbrev JSStr := List Char

/-- ASCII lower-casing of one character, modelling
`String.prototype.toLowerCase` on the ASCII range used by the engine. -/
def asciiLower (c : Char) : Char :=
  if 'A' ≤ c ∧ c ≤ 'Z' then Char.ofNat (c.toNat + 32) else c

/-- ASCII upper-casing of one character, modelling
`String.prototype.toUpperCase` on one character. -/
def asciiUpper (c : Char) : Char :=
  if 'a' ≤ c ∧ c ≤ 'z' then Char.ofNat (c.toNat - 32) else c

/-- Lower-casing of a JS string. -/
def jsLower (s : JSStr) : JSStr := s.map asciiLower

/-- Whitespace test for the `\s` character class on the characters that can
occur in the engine's data. -/
def isWsChar (c : Char) : Bool :=
  c == ' ' || c == '\t' || c == '\n' || c == '\r'

/-- Stable insertion of `x` into `l`: `x` is placed before the first element
`y` for which the comparator does not demand that `y` stay strictly in front
of `x`.  `lt y x = true` reads "`y` must precede `x`". -/
def jsInsert (lt : α → α → Bool) (x : α) : List α → List α
  | [] => [x]
  | y :: ys => if lt y x then y :: jsInsert lt x ys else x :: y :: ys

/-- Stable sort modelling `Array.prototype.sort` with a comparator
(ECMAScript requires sort stability).  `lt y x = true` means the comparator
puts `y` strictly before `x`. -/
def jsSortBy (lt : α → α → Bool) : List α → List α
  | [] => []
  | x :: xs => jsInsert lt x (jsSortBy lt xs)

theorem jsInsert_perm (lt : α → α → Bool) (x : α) (l : List α) :
    (jsInsert lt x l).Perm (x :: l) := by
  induction l with
  | nil => simp [jsInsert]
  | cons y ys ih =>
    simp only [jsInsert]
    split
    · exact (ih.cons y).trans (List.Perm.swap x y ys)
    · exact List.Perm.refl _

theorem jsSortBy_perm (lt : α → α → Bool) (l : List α) :
    (jsSortBy lt l).Perm l := by
  induction l with
  | nil => simp [jsSortBy]
  | cons x xs ih => exact (jsInsert_perm lt x (jsSortBy lt xs)).trans (ih.cons x)

theorem mem_jsSortBy (lt : α → α → Bool) (l : List α) (a : α) :
    a ∈ jsSortBy lt l ↔ a ∈ l :=
  (jsSortBy_perm lt l).mem_iff

theorem jsSortBy_length (lt : α → α → Bool) (l : List α) :
    (jsSortBy lt l).length = l.length :=
  (jsSortBy_perm lt l).length_eq

/-- Lookup in a JS `Map` modelled as an insertion-ordered association list. -/
def mapGet? [DecidableEq κ] : List (κ × ν) → κ → Option ν
  | [], _ => none
  | (k, v) :: rest, key => if k = key then some v else mapGet? rest key

/-- `Map.prototype.set`: updating an existing key keeps its position in the
iteration order, a new key is appended at the end. -/
def mapSet [DecidableEq κ] : List (κ × ν) → κ → ν → List (κ × ν)
  | [], key, v => [(key, v)]
  | (k, w) :: rest, key, v =>
    if k = key then (key, v) :: rest else (k, w) :: mapSet rest key v

/-- De-duplication that keeps the first occurrence of each element, in
order, modelling `Array.from(new Set(xs))`. -/
def jsSetDedup [DecidableEq α] : List α → List α
  | [] => []
  | x :: xs => x :: (jsSetDedup xs).filter (fun y => y ≠ x)

/-- Prefix test: `jsStartsWith s p` holds when `p` is a prefix of `s`. -/
def jsStartsWith : JSStr → JSStr → Bool
  | _, [] => true
  | [], _ :: _ => false
  | c :: cs, d :: ds => c == d && jsStartsWith cs ds

/-- Substring test modelling `String.prototype.includes`:
`jsIncludes s p` holds when `p` occurs contiguously inside `s`. -/
def jsIncludes : JSStr → JSStr → Bool
  | [], p => jsStartsWith [] p
  | c :: cs, p => jsStartsWith (c :: cs) p || jsIncludes cs p

theorem jsStartsWith_iff (p : JSStr) :
    ∀ s : JSStr, jsStartsWith s p = true ↔ ∃ t, s = p ++ t := by
  induction p with
  | nil => intro s; simp [jsStartsWith]
  | cons d ds ih =>
    intro s
    cases s with
    | nil => simp [jsStartsWith]
    | cons c cs =>
      simp only [jsStartsWith, Bool.and_eq_true, beq_iff_eq, ih cs]
      constructor
      · rintro ⟨h1, t, h2⟩; exact ⟨t, by simp [h1, h2]⟩
      · rintro ⟨t, h⟩
        rw [List.cons_append] at h
        injection h with h1 h2
        exact ⟨h1, t, h2⟩

theorem jsIncludes_iff (s p : JSStr) :
    jsIncludes s p = true ↔ ∃ pre post, s = pre ++ p ++ post := by
  induction s with
  | nil =>
    simp only [jsIncludes, jsStartsWith_iff]
    constructor
    · rintro ⟨t, h⟩; exact ⟨[], t, by simpa using h⟩
    · rintro ⟨pre, post, h⟩
      rcases List.append_eq_nil.mp h.symm with ⟨h1, h2⟩
      rcases List.append_eq_nil.mp h1 with ⟨h3, h4⟩
      subst h4
      exact ⟨[], rfl⟩
  | cons c cs ih =>
    simp only [jsIncludes, Bool.or_eq_true, jsStartsWith_iff, ih]
    constructor
    · rintro (⟨t, h⟩ | ⟨pre, post, h⟩)
      · exact ⟨[], t, by simpa using h⟩
      · exact ⟨c :: pre, post, by simp [h]⟩
    · rintro ⟨pre, post, h⟩
      cases pre with
      | nil => exact Or.inl ⟨post, by simpa using h⟩
      | cons x xs =>
        refine Or.inr ⟨xs, post, ?_⟩
        rw [List.cons_append, List.cons_append] at h
        injection h with h1 h2

/-- Array join with a separator, modelling `Array.prototype.join`. -/
def jsJoin (sep : JSStr) : List JSStr → JSStr
  | [] => []
  | [x] => x
  | x :: y :: rest => x ++ sep ++ jsJoin sep (y :: rest)

theorem jsJoin_decomp (sep : JSStr) (l : List JSStr) (kw : JSStr)
    (h : kw ∈ l) : ∃ pre post, jsJoin sep l = pre ++ kw ++ post := by
  induction l with
  | nil => cases h
  | cons x xs ih =>
    cases xs with
    | nil =>
      rcases List.mem_singleton.mp h with rfl
      exact ⟨[], [], by simp [jsJoin]⟩
    | cons y ys =>
      rcases List.mem_cons.mp h with rfl | h2
      · exact ⟨[], sep ++ jsJoin sep (y :: ys), by simp [jsJoin]⟩
      · rcases ih h2 with ⟨pre, post, hp⟩
        exact ⟨x ++ sep ++ pre, post, by simp [jsJoin, hp]⟩

/-! ## `src/lib/text/stem.ts` -/

/-- One suffix rule: the (lower-case) suffix to match and its replacement. -/
abbrev SuffixRule := JSStr × JSStr

/-- Case-insensitive suffix test modelling a `/xyz$/i` regex (the stored
suffixes are lower-case). -/
def ciEndsWith (w sfx : JSStr) : Bool := sfx.isSuffixOf (jsLower w)

/-- Result of `word.replace(/sfx$/i, repl)` when the suffix matched: the
trailing `sfx.length` characters are replaced by `repl`. -/
def applyRule (w : JSStr) (r : SuffixRule) : JSStr :=
  w.take (w.length - r.1.length) ++ r.2

/-- Run an ordered suffix-rule list in the manner of `stripSuffix`: the
first rule whose suffix matches and whose stripped result keeps at least 3
characters wins; when a matching rule yields a too-short result the scan
continues with the later rules; if no rule applies the word is unchanged. -/
def applyRules : List SuffixRule → JSStr → JSStr
  | [], w => w
  | r :: rest, w =>
    if ciEndsWith w r.1 then
      let next := applyRule w r
      if 3 ≤ next.length then next else applyRules rest w
    else applyRules rest w

/-- Rule table of `stem.ts` in source order: `ies, ing, ings, ed, ers, er,
es, s`. -/
def SUFFIX_RULES : List SuffixRule :=
  [ (['i', 'e', 's'], ['y']),
    (['i', 'n', 'g'], [] ),
    (['i', 'n', 'g', 's'], ['i', 'n', 'g']),
    (['e', 'd'], [] ),
    (['e', 'r', 's'], ['e', 'r']),
    (['e', 'r'], [] ),
    (['e', 's'], ['e']),
    (['s'], [] ) ]

/-- `stripSuffix` from `stem.ts`. -/
def stripSuffix (word : JSStr) : JSStr := applyRules SUFFIX_RULES word

/-- `stemWord` from `stem.ts`: lower-case, return words of length ≤ 2
unchanged, otherwise strip a suffix. -/
def stemWord (word : JSStr) : JSStr :=
  let cleaned := jsLower word
  if cleaned.length ≤ 2 then cleaned else stripSuffix cleaned

/-- `stemTokens` from `stem.ts`. -/
def stemTokens (tokens : List JSStr) : List JSStr := tokens.map stemWord

/-- Rule table in the order stated by the specification: `ies, ings, ing,
ed, ers, er, es, s` (the `ing`/`ings` pair is swapped relative to the
source). -/
def SPEC_SUFFIX_RULES : List SuffixRule :=
  [ (['i', 'e', 's'], ['y']),
    (['i', 'n', 'g', 's'], ['i', 'n', 'g']),
    (['i', 'n', 'g'], [] ),
    (['e', 'd'], [] ),
    (['e', 'r', 's'], ['e', 'r']),
    (['e', 'r'], [] ),
    (['e', 's'], ['e']),
    (['s'], [] ) ]

/-- The stemmer exactly as the specification words it: words of length ≤ 2
unchanged, otherwise the spec-ordered first-matching-suffix rule list with
the ≥ 3 characters guard. -/
def specStem (word : JSStr) : JSStr :=
  if word.length ≤ 2 then word else applyRules SPEC_SUFFIX_RULES word

theorem applyRules_cons (sfx repl : JSStr) (rest : List SuffixRule) (w : JSStr) :
    applyRules ((sfx, repl) :: rest) w =
      if ciEndsWith w sfx then
        (if 3 ≤ (applyRule w (sfx, repl)).length then applyRule w (sfx, repl)
         else applyRules rest w)
      else applyRules rest w := rfl

theorem applyRules_tail_congr (sfx repl : JSStr) (t1 t2 : List SuffixRule)
    (w : JSStr) (h : applyRules t1 w = applyRules t2 w) :
    applyRules ((sfx, repl) :: t1) w = applyRules ((sfx, repl) :: t2) w := by
  rw [applyRules_cons, applyRules_cons, h]

theorem ciEndsWith_getLast (w sfx : JSStr) (h : ciEndsWith w sfx = true)
    (hne : sfx ≠ []) : (jsLower w).getLast? = sfx.getLast? := by
  rcases List.isSuffixOf_iff_suffix.mp h with ⟨t, ht⟩
  rw [← ht]
  exact List.getLast?_append_of_ne_nil t hne

theorem ing_ings_disjoint (w : JSStr) (h : ciEndsWith w ['i', 'n', 'g'] = true) :
    ciEndsWith w ['i', 'n', 'g', 's'] = false := by
  by_contra hc
  have h2 : ciEndsWith w ['i', 'n', 'g', 's'] = true := by
    cases hx : ciEndsWith w ['i', 'n', 'g', 's']
    · exact absurd hx hc
    · rfl
  have e1 := ciEndsWith_getLast w _ h (by decide)
  have e2 := ciEndsWith_getLast w _ h2 (by decide)
  rw [e1] at e2
  simp at e2

theorem applyRules_swap_ing (w : JSStr) (rest : List SuffixRule) :
    applyRules ((['i', 'n', 'g'], ([] : JSStr)) :: (['i', 'n', 'g', 's'], ['i', 'n', 'g']) :: rest) w
      = applyRules ((['i', 'n', 'g', 's'], ['i', 'n', 'g']) :: (['i', 'n', 'g'], ([] : JSStr)) :: rest) w := by
  by_cases h1 : ciEndsWith w ['i', 'n', 'g'] = true
  · have h2 := ing_ings_disjoint w h1
    simp [applyRules_cons, h1, h2]
  · have h1f : ciEndsWith w ['i', 'n', 'g'] = false := by
      cases hx : ciEndsWith w ['i', 'n', 'g']
      · rfl
      · exact absurd hx h1
    simp [applyRules_cons, h1f]

/-- C6: for every word the stemmer of `stem.ts` behaves exactly as the
specification's ordered rule list prescribes (after the lower-casing the
stemmer performs): length ≤ 2 words are returned unchanged, longer words
get the first matching suffix rule whose result keeps ≥ 3 characters, with
the rule order `ies, ings, ing, ed, ers, er, es, s`.  The source lists
`ing` before `ings`, but no word can end in both suffixes, so the two
tables agree on every input. -/
theorem stemWord_eq_specStem (word : JSStr) :
    stemWord word = specStem (jsLower word) := by
  by_cases h : (jsLower word).length ≤ 2
  · simp [stemWord, specStem, h]
  · simp only [stemWord, specStem, h, if_false]
    show applyRules SUFFIX_RULES (jsLower word) = applyRules SPEC_SUFFIX_RULES (jsLower word)
    rw [show SUFFIX_RULES = (['i', 'e', 's'], ['y']) ::
        ((['i', 'n', 'g'], ([] : JSStr)) :: (['i', 'n', 'g', 's'], ['i', 'n', 'g']) ::
        [(['e', 'd'], ([] : JSStr)), (['e', 'r', 's'], ['e', 'r']),
         (['e', 'r'], ([] : JSStr)), (['e', 's'], ['e']),
         (['s'], ([] : JSStr))]) from rfl,
      show SPEC_SUFFIX_RULES = (['i', 'e', 's'], ['y']) ::
        ((['i', 'n', 'g', 's'], ['i', 'n', 'g']) :: (['i', 'n', 'g'], ([] : JSStr)) ::
        [(['e', 'd'], ([] : JSStr)), (['e', 'r', 's'], ['e', 'r']),
         (['e', 'r'], ([] : JSStr)), (['e', 's'], ['e']),
         (['s'], ([] : JSStr))]) from rfl]
    exact applyRules_tail_congr _ _ _ _ _ (applyRules_swap_ing _ _)

/-! ## `src/lib/problems/extract.ts` -/

/-- Stop-word list of `extract.ts`, in source order. -/
def STOPWORDS : List JSStr :=
  [ "a".toList, "an".toList, "the".toList, "and".toList, "or".toList,
    "but".toList, "for".toList, "nor".toList, "so".toList, "yet".toList,
    "of".toList, "at".toList, "by".toList, "to".toList, "into".toList,
    "on".toList, "onto".toList, "in".toList, "that".toList, "this".toList,
    "these".toList, "those".toList, "with".toList, "about".toList,
    "from".toList, "up".toList, "down".toList, "over".toList,
    "under".toList, "again".toList, "further".toList, "then".toList,
    "once".toList, "here".toList, "there".toList, "when".toList,
    "where".toList, "why".toList, "how".toList, "all".toList,
    "any".toList, "both".toList, "each".toList, "few".toList,
    "more".toList, "most".toList, "other".toList, "some".toList,
    "such".toList, "no".toList, "not".toList, "only".toList,
    "own".toList, "same".toList, "than".toList, "too".toList,
    "very".toList, "can".toList, "will".toList, "just".toList,
    "need".toList, "have".toList, "has".toList, "had".toList,
    "be".toList, "is".toList, "am".toList, "are".toList, "was".toList,
    "were".toList, "being".toList, "been".toList ]

/-- Character filter of `canonicalizePhrase`: the regex
`[^a-z0-9\s'-]` replaces every character that is not a lower-case letter,
digit, whitespace, apostrophe or hyphen by a space (the input was already
lower-cased). -/
def canonKeepChar (c : Char) : Char :=
  if ('a' ≤ c ∧ c ≤ 'z') ∨ ('0' ≤ c ∧ c ≤ '9') ∨ isWsChar c = true ∨
      c = Char.ofNat 39 ∨ c = '-' then c else ' '

/-- Lexicographic (UTF-16 code unit) order on JS strings, the default
comparator of `Array.prototype.sort` for strings. -/
def jsStrLt : JSStr → JSStr → Bool
  | [], [] => false
  | [], _ :: _ => true
  | _ :: _, [] => false
  | c :: cs, d :: ds => if c < d then true else if d < c then false else jsStrLt cs ds

/-- `canonicalizePhrase` from `extract.ts`: lower-case, strip characters
outside `[a-z0-9\s'-]`, split on whitespace, drop empty tokens and
stop-words, de-duplicate, sort, join with `_`.  Note: no stemming step
appears in the source. -/
def canonicalizePhrase (phrase : JSStr) : JSStr :=
  let tokens := (((jsLower phrase).map canonKeepChar).splitOnP isWsChar).filter
      (fun t => !t.isEmpty && !(STOPWORDS.contains t))
  let unique := jsSetDedup tokens
  jsJoin ['_'] (jsSortBy jsStrLt unique)

/-- Pain-indicator word list local to `extract.ts` (used by
`countPainWords`). -/
def PAIN_WORDS : List JSStr :=
  [ "problem".toList, "issue".toList, "difficult".toList, "hard".toList,
    "struggle".toList, "pain".toList, "annoying".toList,
    "frustrating".toList ]

/-- Word-character test for the regex `\b` boundary (`[A-Za-z0-9_]`). -/
def isWordChar (c : Char) : Bool :=
  ('a' ≤ c && c ≤ 'z') || ('A' ≤ c && c ≤ 'Z') || ('0' ≤ c && c ≤ '9') || c == '_'

/-- A `\b` boundary holds before a position when the preceding character
(if any) is not a word character. -/
def boundaryBefore : Option Char → Bool
  | none => true
  | some c => !isWordChar c

/-- A `\b` boundary holds after a match when the following character (if
any) is not a word character. -/
def boundaryAfter : JSStr → Bool
  | [] => true
  | c :: _ => !isWordChar c

/-- Count the word-boundary-delimited occurrences of `w`, scanning every
position of the text (the pain words consist of word characters only, so
boundary-delimited occurrences cannot overlap and this equals the global
regex match count). -/
def countOccWBAux (w : JSStr) : Option Char → JSStr → ℕ
  | _, [] => 0
  | prev, c :: cs =>
    (if boundaryBefore prev && jsStartsWith (c :: cs) w &&
        boundaryAfter ((c :: cs).drop w.length) then 1 else 0) +
      countOccWBAux w (some c) cs

/-- Occurrences of `\b w \b` in `s` for the global, case-sensitive scan the
source performs on the lower-cased text. -/
def countOccWB (s w : JSStr) : ℕ := countOccWBAux w none s

/-- `countPainWords` from `extract.ts`: sum over the pain-word list of the
word-boundary match counts in the lower-cased text; the empty text yields
0. -/
def countPainWords (text : JSStr) : ℕ :=
  if text.isEmpty then 0
  else (PAIN_WORDS.map (fun w => countOccWB (jsLower text) w)).foldl (· + ·) 0

/-- C2, code evaluation at the failing input: `canonicalizePhrase` applies
no stemming, so the canonical signature of
`"turning meeting notes into jira tasks"` keeps the unstemmed token
`notes`, contains no token `note`, and drops the stop-word `into`.  The
repository's own test (`extract.test.ts`, "produces canonical keys with
stemming and stopwords removed") and the specification both require the
stemmed token `note`, which this evaluation refutes: the stemmer of
`stem.ts` is never invoked by `canonicalizePhrase`. -/
theorem canonicalizePhrase_unstemmed_at_test_input :
    canonicalizePhrase ( "turning meeting notes into jira tasks".toList)
        = "jira_meeting_notes_tasks_turning".toList ∧
      "notes".toList ∈ (canonicalizePhrase
        ( "turning meeting notes into jira tasks".toList)).splitOnP (fun c => c == '_') ∧
      "note".toList ∉ (canonicalizePhrase
        ( "turning meeting notes into jira tasks".toList)).splitOnP (fun c => c == '_') ∧
      "into".toList ∉ (canonicalizePhrase
        ( "turning meeting notes into jira tasks".toList)).splitOnP (fun c => c == '_') := by
  decide

/-! ## `src/lib/text/similarity.ts` -/

/-- Bigram list of `similarity.ts`: lower-case the text, then collect all
adjacent character pairs (`slice(i, i+2)` for `i < length - 1`). -/
def bigrams (text : JSStr) : List (Char × Char) :=
  let cleaned := jsLower text
  cleaned.zip cleaned.tail

/-- Multiset of bigram counts built exactly as the `bCounts` map of
`diceCoefficient`: `bCounts.set(gram, (bCounts.get(gram) ?? 0) + 1)`. -/
def countsMap [DecidableEq γ] (l : List γ) : List (γ × ℕ) :=
  l.foldl (fun m g => mapSet m g ((mapGet? m g).getD 0 + 1)) []

/-- Overlap loop of `diceCoefficient`: each bigram of `a` consumes at most
one remaining occurrence from the count map of `b`'s bigrams. -/
def diceOverlap [DecidableEq γ] : List γ → List (γ × ℕ) → ℕ
  | [], _ => 0
  | g :: rest, counts =>
    let c := (mapGet? counts g).getD 0
    if 0 < c then 1 + diceOverlap rest (mapSet counts g (c - 1))
    else diceOverlap rest counts

/-- `diceCoefficient` from `similarity.ts`. -/
def diceCoefficient (a b : JSStr) : ℚ :=
  if a.length = 0 ∨ b.length = 0 then 0
  else if a = b then 1
  else
    let aB := bigrams a
    let bB := bigrams b
    if aB.length = 0 ∨ bB.length = 0 then 0
    else (2 * (diceOverlap aB (countsMap bB) : ℚ)) / ((aB.length : ℚ) + (bB.length : ℚ))

/-- Match window `Math.floor(Math.max(aLen, bLen) / 2) - 1` of
`jaroDistance` (may be `-1` for very short strings). -/
def matchDist (aLen bLen : ℕ) : ℤ := (max aLen bLen : ℤ) / 2 - 1

/-- Inner window search of `jaroDistance`: the first index `j` in
`[start, stop)` whose `b` character equals `c` and is not yet matched. -/
def jaroFindMatch (b : JSStr) (bm : List Bool) (c : Char) (start stop : ℕ) : Option ℕ :=
  (List.range' start (stop - start)).find?
    (fun j => bm.getD j true == false && b.get? j == some c)

/-- Matching phase of `jaroDistance`: walk the characters of `a` (index
`i`), marking at most one unmatched `b` position inside the window per
character; returns the final `b`-side match flags and the matched `a`
characters in order. -/
def jaroScan (b : JSStr) (md : ℤ) : List Char → ℕ → List Bool → List Bool × List Char
  | [], _, bm => (bm, [])
  | c :: rest, i, bm =>
    let start := (max 0 ((i : ℤ) - md)).toNat
    let stop := (min ((i : ℤ) + md + 1) (b.length : ℤ)).toNat
    match jaroFindMatch b bm c start stop with
    | some j =>
      let p := jaroScan b md rest (i + 1) (bm.set j true)
      (p.1, c :: p.2)
    | none => jaroScan b md rest (i + 1) bm

/-- Matched `b` characters in `b` order (the transposition loop of
`jaroDistance` pairs the k-th matched `a` character with the k-th matched
`b` character). -/
def boolMarkedChars (b : JSStr) (bm : List Bool) : List Char :=
  (b.zip bm).filterMap (fun p => if p.2 then some p.1 else none)

/-- Raw transposition count: positions where the k-th matched characters
of the two sides differ. -/
def countTransp (as bs : List Char) : ℕ :=
  (as.zip bs).countP (fun p => !(p.1 == p.2))

/-- `jaroDistance` from `similarity.ts`: identical strings give 1 (checked
before the emptiness test), any empty side gives 0, zero matches give 0,
otherwise the standard Jaro formula with transpositions counted over
matched pairs. -/
def jaroDistance (a b : JSStr) : ℚ :=
  if a = b then 1
  else if a.length = 0 ∨ b.length = 0 then 0
  else
    let scan := jaroScan b (matchDist a.length b.length) a 0 (List.replicate b.length false)
    let m := scan.2.length
    if m = 0 then 0
    else
      let t : ℚ := (countTransp scan.2 (boolMarkedChars b scan.1) : ℚ) / 2
      ((m : ℚ) / (a.length : ℚ) + (m : ℚ) / (b.length : ℚ) + ((m : ℚ) - t) / (m : ℚ)) / 3

/-- Common-prefix length capped at `k`, modelling the prefix loop of
`jaroWinklerDistance` (`i < min(a.length, b.length, 4)`, break on first
mismatch). -/
def jsCommonPref : JSStr → JSStr → ℕ → ℕ
  | _, _, 0 => 0
  | [], _, _ + 1 => 0
  | _ :: _, [], _ + 1 => 0
  | c :: cs, d :: ds, k + 1 => if c = d then 1 + jsCommonPref cs ds k else 0

/-- `jaroWinklerDistance` from `similarity.ts`; every caller in the
repository uses the default `prefixScale = 0.1`. -/
def jaroWinklerDistance (a b : JSStr) (prefixScale : ℚ) : ℚ :=
  let jaro := jaroDistance a b
  let pl := jsCommonPref a b 4
  jaro + (pl : ℚ) * prefixScale * (1 - jaro)

/-- `similarity` from the clustering module (`cluster.ts`, identical in
both observed revisions): the OR-combination `max(dice, jaroWinkler)`. -/
def similarity (a b : JSStr) : ℚ :=
  max (diceCoefficient a b) (jaroWinklerDistance a b (1 / 10))

/-! ### Bounds for the similarity metrics -/

/-- Total number of occurrences recorded in a count map. -/
def mapTotal (m : List (γ × ℕ)) : ℕ := (m.map (fun p => p.2)).sum

theorem mapTotal_cons (k : γ) (w : ℕ) (m : List (γ × ℕ)) :
    mapTotal ((k, w) :: m) = w + mapTotal m := by
  simp [mapTotal]

theorem mapTotal_set [DecidableEq γ] (m : List (γ × ℕ)) (g : γ) (v : ℕ) :
    mapTotal (mapSet m g v) + (mapGet? m g).getD 0 = mapTotal m + v := by
  induction m with
  | nil => simp [mapSet, mapGet?, mapTotal]
  | cons p rest ih =>
    obtain ⟨k, w⟩ := p
    by_cases h : k = g
    · subst h
      simp [mapSet, mapGet?, mapTotal_cons]
      omega
    · simp only [mapSet, mapGet?, if_neg h, mapTotal_cons]
      omega

theorem countsMap_total [DecidableEq γ] (l : List γ) :
    mapTotal (countsMap l) = l.length := by
  have key : ∀ (l : List γ) (m : List (γ × ℕ)),
      mapTotal (l.foldl (fun m g => mapSet m g ((mapGet? m g).getD 0 + 1)) m)
        = mapTotal m + l.length := by
    intro l
    induction l with
    | nil => intro m; simp
    | cons g rest ih =>
      intro m
      rw [List.foldl_cons, ih]
      have h := mapTotal_set m g ((mapGet? m g).getD 0 + 1)
      simp only [List.length_cons]
      omega
  have h := key l []
  simpa [countsMap, mapTotal] using h

theorem diceOverlap_cons [DecidableEq γ] (g : γ) (rest : List γ)
    (counts : List (γ × ℕ)) :
    diceOverlap (g :: rest) counts =
      if 0 < (mapGet? counts g).getD 0 then
        1 + diceOverlap rest (mapSet counts g ((mapGet? counts g).getD 0 - 1))
      else diceOverlap rest counts := rfl

theorem diceOverlap_le_length [DecidableEq γ] (l : List γ) :
    ∀ counts : List (γ × ℕ), diceOverlap l counts ≤ l.length := by
  induction l with
  | nil => intro counts; simp [diceOverlap]
  | cons g rest ih =>
    intro counts
    rw [diceOverlap_cons]
    split
    · have h := ih (mapSet counts g ((mapGet? counts g).getD 0 - 1))
      simp only [List.length_cons]
      omega
    · have h := ih counts
      simp only [List.length_cons]
      omega

theorem diceOverlap_le_total [DecidableEq γ] (l : List γ) :
    ∀ counts : List (γ × ℕ), diceOverlap l counts ≤ mapTotal counts := by
  induction l with
  | nil => intro counts; simp [diceOverlap]
  | cons g rest ih =>
    intro counts
    rw [diceOverlap_cons]
    split
    · rename_i h
      have hset := mapTotal_set counts g ((mapGet? counts g).getD 0 - 1)
      have hih := ih (mapSet counts g ((mapGet? counts g).getD 0 - 1))
      omega
    · exact ih counts

theorem diceCoefficient_nonneg (a b : JSStr) : 0 ≤ diceCoefficient a b := by
  by_cases h1 : a.length = 0 ∨ b.length = 0
  · simp only [diceCoefficient]
    rw [if_pos h1]
  · by_cases h2 : a = b
    · simp only [diceCoefficient]
      rw [if_neg h1, if_pos h2]
      exact zero_le_one
    · simp only [diceCoefficient]
      rw [if_neg h1, if_neg h2]
      split
      · exact le_refl 0
      · positivity

theorem diceCoefficient_le_one (a b : JSStr) : diceCoefficient a b ≤ 1 := by
  by_cases h1 : a.length = 0 ∨ b.length = 0
  · simp only [diceCoefficient]
    rw [if_pos h1]
    exact zero_le_one
  · by_cases h2 : a = b
    · simp only [diceCoefficient]
      rw [if_neg h1, if_pos h2]
    · simp only [diceCoefficient]
      rw [if_neg h1, if_neg h2]
      split
      · exact zero_le_one
      · rename_i h3
        push_neg at h3
        have hov1 := diceOverlap_le_length (bigrams a) (countsMap (bigrams b))
        have hov2 := (diceOverlap_le_total (bigrams a) (countsMap (bigrams b))).trans
          (le_of_eq (countsMap_total (bigrams b)))
        have hpos : (0 : ℚ) < ((bigrams a).length : ℚ) + ((bigrams b).length : ℚ) := by
          have ha := Nat.pos_of_ne_zero h3.1
          exact_mod_cast Nat.add_pos_left ha (bigrams b).length
        rw [div_le_one hpos]
        have key : 2 * diceOverlap (bigrams a) (countsMap (bigrams b)) ≤
            (bigrams a).length + (bigrams b).length := by omega
        exact_mod_cast key

/-- Number of `true` flags in a match-flag list. -/
def countB (l : List Bool) : ℕ := l.countP id

theorem jaroFindMatch_some (b : JSStr) (bm : List Bool) (c : Char)
    (start stop j : ℕ) (h : jaroFindMatch b bm c start stop = some j) :
    j < bm.length ∧ bm.get? j = some false := by
  have hp := List.find?_some h
  rw [Bool.and_eq_true] at hp
  have h1 : bm.getD j true = false := by
    have := hp.1
    rwa [beq_iff_eq] at this
  rw [List.getD] at h1
  cases hg : bm.get? j with
  | none => rw [hg] at h1; simp at h1
  | some x =>
    rw [hg] at h1
    simp only [Option.getD_some] at h1
    subst h1
    have hlt : j < bm.length := by
      by_contra hc
      push_neg at hc
      rw [List.get?_eq_none.mpr hc] at hg
      cases hg
    exact ⟨hlt, rfl⟩

theorem countB_set_true (bm : List Bool) (j : ℕ) (h : bm.get? j = some false) :
    countB (bm.set j true) = countB bm + 1 := by
  induction bm generalizing j with
  | nil => simp at h
  | cons x rest ih =>
    cases j with
    | zero =>
      simp only [List.get?] at h
      injection h with h
      subst h
      simp [countB, List.countP_cons]
    | succ n =>
      simp only [List.get?] at h
      simp only [List.set, countB, List.countP_cons]
      have := ih n h
      simp only [countB] at this
      omega

theorem jaroScan_fst_length (b : JSStr) (md : ℤ) (as : List Char) :
    ∀ (i : ℕ) (bm : List Bool), (jaroScan b md as i bm).1.length = bm.length := by
  induction as with
  | nil => intro i bm; simp [jaroScan]
  | cons c rest ih =>
    intro i bm
    simp only [jaroScan]
    cases hf : jaroFindMatch b bm c ((max 0 ((i : ℤ) - md)).toNat)
        ((min ((i : ℤ) + md + 1) (b.length : ℤ)).toNat) with
    | some j => simpa [List.length_set] using ih (i + 1) (bm.set j true)
    | none => exact ih (i + 1) bm

theorem jaroScan_snd_le (b : JSStr) (md : ℤ) (as : List Char) :
    ∀ (i : ℕ) (bm : List Bool), (jaroScan b md as i bm).2.length ≤ as.length := by
  induction as with
  | nil => intro i bm; simp [jaroScan]
  | cons c rest ih =>
    intro i bm
    simp only [jaroScan]
    cases hf : jaroFindMatch b bm c ((max 0 ((i : ℤ) - md)).toNat)
        ((min ((i : ℤ) + md + 1) (b.length : ℤ)).toNat) with
    | some j =>
      simp only [List.length_cons]
      exact Nat.succ_le_succ (ih (i + 1) (bm.set j true))
    | none =>
      simp only [List.length_cons]
      exact (ih (i + 1) bm).trans (Nat.le_succ _)

theorem jaroScan_countB (b : JSStr) (md : ℤ) (as : List Char) :
    ∀ (i : ℕ) (bm : List Bool),
      countB (jaroScan b md as i bm).1 = countB bm + (jaroScan b md as i bm).2.length := by
  induction as with
  | nil => intro i bm; simp [jaroScan]
  | cons c rest ih =>
    intro i bm
    simp only [jaroScan]
    cases hf : jaroFindMatch b bm c ((max 0 ((i : ℤ) - md)).toNat)
        ((min ((i : ℤ) + md + 1) (b.length : ℤ)).toNat) with
    | some j =>
      obtain ⟨hlt, hget⟩ := jaroFindMatch_some b bm c _ _ j hf
      have h1 := ih (i + 1) (bm.set j true)
      have h2 := countB_set_true bm j hget
      simp only [List.length_cons]
      omega
    | none => exact ih (i + 1) bm

theorem countB_le_length (l : List Bool) : countB l ≤ l.length :=
  List.countP_le_length _

theorem countB_replicate_false (n : ℕ) : countB (List.replicate n false) = 0 := by
  induction n with
  | zero => simp [countB]
  | succ k ih =>
    simp only [List.replicate_succ, countB, List.countP_cons]
    simp only [countB] at ih
    simp [ih]

theorem boolMarkedChars_length (b : JSStr) :
    ∀ bm : List Bool, bm.length = b.length →
      (boolMarkedChars b bm).length = countB bm := by
  induction b with
  | nil =>
    intro bm h
    have : bm = [] := List.length_eq_zero.mp h
    subst this
    simp [boolMarkedChars, countB]
  | cons c cs ih =>
    intro bm h
    cases bm with
    | nil => simp at h
    | cons x rest =>
      simp only [List.length_cons] at h
      have hr := ih rest (by omega)
      cases x with
      | false =>
        have heq : boolMarkedChars (c :: cs) (false :: rest) = boolMarkedChars cs rest := by
          simp [boolMarkedChars]
        rw [heq, hr]
        simp [countB, List.countP_cons]
      | true =>
        have heq : boolMarkedChars (c :: cs) (true :: rest) = c :: boolMarkedChars cs rest := by
          simp [boolMarkedChars]
        rw [heq]
        simp only [List.length_cons, hr]
        simp [countB, List.countP_cons]

theorem countTransp_le_left (as bs : List Char) : countTransp as bs ≤ as.length :=
  (List.countP_le_length _).trans (by rw [List.length_zip]; exact min_le_left _ _)

theorem jaroDistance_nonneg (a b : JSStr) : 0 ≤ jaroDistance a b := by
  by_cases h1 : a = b
  · simp only [jaroDistance]; rw [if_pos h1]; exact zero_le_one
  · by_cases h2 : a.length = 0 ∨ b.length = 0
    · simp only [jaroDistance]; rw [if_neg h1, if_pos h2]
    · simp only [jaroDistance]
      rw [if_neg h1, if_neg h2]
      set scan := jaroScan b (matchDist a.length b.length) a 0
        (List.replicate b.length false) with hscan
      by_cases hm : scan.2.length = 0
      · rw [if_pos hm]
      · rw [if_neg hm]
        have hm1 : 1 ≤ scan.2.length := Nat.pos_of_ne_zero hm
        have hfl : scan.1.length = b.length := by
          rw [hscan, jaroScan_fst_length, List.length_replicate]
        have hcb : countB scan.1 = scan.2.length := by
          rw [hscan, jaroScan_countB, countB_replicate_false]
          omega
        have hbs : (boolMarkedChars b scan.1).length = scan.2.length :=
          (boolMarkedChars_length b scan.1 hfl).trans hcb
        have htr : countTransp scan.2 (boolMarkedChars b scan.1) ≤ scan.2.length :=
          countTransp_le_left _ _
        have hM : (1 : ℚ) ≤ (scan.2.length : ℚ) := by exact_mod_cast hm1
        have htq : ((countTransp scan.2 (boolMarkedChars b scan.1) : ℚ)) ≤
            (scan.2.length : ℚ) := by exact_mod_cast htr
        have hq1 : (0 : ℚ) ≤ (scan.2.length : ℚ) / (a.length : ℚ) := by positivity
        have hq2 : (0 : ℚ) ≤ (scan.2.length : ℚ) / (b.length : ℚ) := by positivity
        have hq3 : (0 : ℚ) ≤ ((scan.2.length : ℚ) -
            (countTransp scan.2 (boolMarkedChars b scan.1) : ℚ) / 2) /
            (scan.2.length : ℚ) := by
          apply div_nonneg _ (by linarith)
          linarith
        linarith

theorem jaroDistance_le_one (a b : JSStr) : jaroDistance a b ≤ 1 := by
  by_cases h1 : a = b
  · simp only [jaroDistance]; rw [if_pos h1]
  · by_cases h2 : a.length = 0 ∨ b.length = 0
    · simp only [jaroDistance]; rw [if_neg h1, if_pos h2]; exact zero_le_one
    · simp only [jaroDistance]
      rw [if_neg h1, if_neg h2]
      set scan := jaroScan b (matchDist a.length b.length) a 0
        (List.replicate b.length false) with hscan
      by_cases hm : scan.2.length = 0
      · rw [if_pos hm]; exact zero_le_one
      · rw [if_neg hm]
        push_neg at h2
        have ha1 : 1 ≤ a.length := Nat.pos_of_ne_zero h2.1
        have hb1 : 1 ≤ b.length := Nat.pos_of_ne_zero h2.2
        have hm1 : 1 ≤ scan.2.length := Nat.pos_of_ne_zero hm
        have hma : scan.2.length ≤ a.length := by
          rw [hscan]; exact jaroScan_snd_le b _ a 0 _
        have hfl : scan.1.length = b.length := by
          rw [hscan, jaroScan_fst_length, List.length_replicate]
        have hcb : countB scan.1 = scan.2.length := by
          rw [hscan, jaroScan_countB, countB_replicate_false]
          omega
        have hmb : scan.2.length ≤ b.length := by
          have := countB_le_length scan.1
          omega
        have htr : countTransp scan.2 (boolMarkedChars b scan.1) ≤ scan.2.length :=
          countTransp_le_left _ _
        have hM : (1 : ℚ) ≤ (scan.2.length : ℚ) := by exact_mod_cast hm1
        have htq : ((countTransp scan.2 (boolMarkedChars b scan.1) : ℚ)) ≥ 0 := by positivity
        have hapos : (0 : ℚ) < (a.length : ℚ) := by exact_mod_cast Nat.pos_of_ne_zero h2.1
        have hbpos : (0 : ℚ) < (b.length : ℚ) := by exact_mod_cast Nat.pos_of_ne_zero h2.2
        have hq1 : (scan.2.length : ℚ) / (a.length : ℚ) ≤ 1 := by
          rw [div_le_one hapos]
          exact_mod_cast hma
        have hq2 : (scan.2.length : ℚ) / (b.length : ℚ) ≤ 1 := by
          rw [div_le_one hbpos]
          exact_mod_cast hmb
        have hq3 : ((scan.2.length : ℚ) -
            (countTransp scan.2 (boolMarkedChars b scan.1) : ℚ) / 2) /
            (scan.2.length : ℚ) ≤ 1 := by
          rw [div_le_one (by linarith)]
          linarith
        linarith

theorem jsCommonPref_le (a b : JSStr) (k : ℕ) : jsCommonPref a b k ≤ k := by
  induction a generalizing b k with
  | nil => cases k <;> simp [jsCommonPref]
  | cons c cs ih =>
    cases k with
    | zero => simp [jsCommonPref]
    | succ n =>
      cases b with
      | nil => simp [jsCommonPref]
      | cons d ds =>
        simp only [jsCommonPref]
        split
        · have := ih ds n
          omega
        · omega

theorem jaroWinklerDistance_nonneg (a b : JSStr) :
    0 ≤ jaroWinklerDistance a b (1 / 10) := by
  have hj0 := jaroDistance_nonneg a b
  have hj1 := jaroDistance_le_one a b
  have hp0 : (0 : ℚ) ≤ (jsCommonPref a b 4 : ℚ) := by positivity
  simp only [jaroWinklerDistance]
  nlinarith

theorem jaroWinklerDistance_le_one (a b : JSStr) :
    jaroWinklerDistance a b (1 / 10) ≤ 1 := by
  have hj0 := jaroDistance_nonneg a b
  have hj1 := jaroDistance_le_one a b
  have hp0 : (0 : ℚ) ≤ (jsCommonPref a b 4 : ℚ) := by positivity
  have hp4 : (jsCommonPref a b 4 : ℚ) ≤ 4 := by exact_mod_cast jsCommonPref_le a b 4
  simp only [jaroWinklerDistance]
  nlinarith

/-- C10: both similarity metrics, and their `max` combination used by the
merge step, always land in the closed interval `[0, 1]`; in particular the
threshold comparison `max(dice, jaroWinkler) ≥ 0.85` is always compared
against a well-defined value (the embedding is exact rational arithmetic,
so no NaN value exists). -/
theorem similarity_metrics_in_unit_interval (a b : JSStr) :
    0 ≤ diceCoefficient a b ∧ diceCoefficient a b ≤ 1 ∧
      0 ≤ jaroWinklerDistance a b (1 / 10) ∧ jaroWinklerDistance a b (1 / 10) ≤ 1 ∧
      0 ≤ similarity a b ∧ similarity a b ≤ 1 :=
  ⟨diceCoefficient_nonneg a b, diceCoefficient_le_one a b,
    jaroWinklerDistance_nonneg a b, jaroWinklerDistance_le_one a b,
    le_max_of_le_left (diceCoefficient_nonneg a b),
    max_le (diceCoefficient_le_one a b) (jaroWinklerDistance_le_one a b)⟩

/-- C5, counterexample: `jaroWinklerDistance` on two empty strings returns
1, not 0, because `jaroDistance` tests `a === b` before testing for
emptiness; the claim "returns 0 whenever either input string is empty" is
therefore false at `a = b = ""`. -/
theorem jaroWinkler_both_empty_is_one :
    jaroWinklerDistance [] [] (1 / 10) = 1 ∧ (1 : ℚ) ≠ 0 := by
  constructor
  · simp [jaroWinklerDistance, jaroDistance, jsCommonPref]
  · norm_num

/-- C5, amended: `diceCoefficient` returns 1 on identical non-empty
strings and 0 whenever either input is empty; `jaroWinklerDistance`
returns 1 on identical non-empty strings and 0 when exactly one input is
empty — but on two empty (hence identical) strings it returns 1, because
the identity test precedes the emptiness test. -/
theorem dice_jaroWinkler_identical_empty (a b : JSStr) :
    (a ≠ [] → diceCoefficient a a = 1 ∧ jaroWinklerDistance a a (1 / 10) = 1) ∧
      (a = [] ∨ b = [] → diceCoefficient a b = 0) ∧
      ((a = [] ∧ b ≠ []) ∨ (a ≠ [] ∧ b = []) →
        jaroWinklerDistance a b (1 / 10) = 0) := by
  refine ⟨?_, ?_, ?_⟩
  · intro ha
    have hlen : ¬(a.length = 0 ∨ a.length = 0) := by
      simp [List.length_eq_zero, ha]
    constructor
    · simp only [diceCoefficient]
      rw [if_neg hlen]
      simp
    · have hj : jaroDistance a a = 1 := by
        simp only [jaroDistance]
        simp
      simp only [jaroWinklerDistance, hj]
      ring
  · intro h
    have hlen : a.length = 0 ∨ b.length = 0 := by
      rcases h with h | h <;> simp [h]
    simp only [diceCoefficient]
    rw [if_pos hlen]
  · intro h
    have hne : a ≠ b := by
      rcases h with ⟨h1, h2⟩ | ⟨h1, h2⟩
      · subst h1; exact fun hc => h2 hc.symm
      · subst h2; exact h1
    have hlen : a.length = 0 ∨ b.length = 0 := by
      rcases h with ⟨h1, _⟩ | ⟨_, h2⟩
      · subst h1; left; rfl
      · subst h2; right; rfl
    have hj : jaroDistance a b = 0 := by
      simp only [jaroDistance]
      rw [if_neg hne, if_pos hlen]
    have hp : jsCommonPref a b 4 = 0 := by
      rcases h with ⟨h1, _⟩ | ⟨_, h2⟩
      · subst h1; rfl
      · subst h2; cases a with
        | nil => rfl
        | cons c cs => rfl
    simp only [jaroWinklerDistance, hj, hp]
    norm_num

/-- C5, witness: the amended statement applied at `a = "x"`, `b = ""`. -/
theorem dice_jaroWinkler_identical_empty_witness :
    diceCoefficient ['x'] ['x'] = 1 ∧ jaroWinklerDistance ['x'] ['x'] (1 / 10) = 1 ∧
      diceCoefficient ['x'] [] = 0 ∧ jaroWinklerDistance ['x'] [] (1 / 10) = 0 := by
  refine ⟨?_, ?_, ?_, ?_⟩
  · exact ((dice_jaroWinkler_identical_empty ['x'] []).1 (by decide)).1
  · exact ((dice_jaroWinkler_identical_empty ['x'] []).1 (by decide)).2
  · exact (dice_jaroWinkler_identical_empty ['x'] []).2.1 (Or.inr rfl)
  · exact (dice_jaroWinkler_identical_empty ['x'] []).2.2 (Or.inr ⟨by decide, rfl⟩)

/-! ## `src/config/patterns.ts` (constants used by the scorer/cluster) -/

/-- `HIGHLIGHT_KEYWORDS` from `patterns.ts`. -/
def HIGHLIGHT_KEYWORDS : List JSStr :=
  [ "automate".toList, "batch".toList, "api".toList, "csv".toList,
    "workflow".toList, "script".toList, "zapier".toList,
    "google sheets".toList ]

/-- `PRIMARY_CUE_IDS` from `patterns.ts`: the ids of the 15 `PROBLEM_CUES`,
in order. -/
def PRIMARY_CUE_IDS : List JSStr :=
  [ "i_wish".toList, "is_there_an_app".toList, "how_do_i".toList,
    "every_period".toList, "no_easy_way".toList, "takes_forever".toList,
    "how_do_i_alt".toList, "need_to".toList, "trying_to".toList,
    "looking_for_tool".toList, "want_to".toList, "can_i".toList,
    "any_way_to".toList, "struggling_with".toList, "spending_time".toList ]

/-! ## `src/lib/types.ts` -/

/-- `RedditPost` from `types.ts`; numeric fields are JS numbers, modelled
as exact rationals. -/
structure RedditPost where
  id : JSStr
  subreddit : JSStr
  title : JSStr
  selftext : JSStr
  url : JSStr
  createdUtc : ℚ
  upvotes : ℚ
  comments : ℚ
  author : Option JSStr
deriving DecidableEq, Inhabited

/-- `ProblemPhrase` from `types.ts`. -/
structure ProblemPhrase where
  postId : JSStr
  phrase : JSStr
  canonical : JSStr
  snippet : JSStr
  cueId : JSStr
deriving DecidableEq, Inhabited

/-- `ClusterPost` from `types.ts`. -/
structure ClusterPost where
  id : JSStr
  subreddit : JSStr
  url : JSStr
  title : JSStr
  createdUtc : ℚ
  upvotes : ℚ
  comments : ℚ
  author : Option JSStr
  matchedSnippet : JSStr
  problemPhrase : JSStr
deriving DecidableEq, Inhabited

/-! ## `src/lib/ideas/score.ts` -/

/-- `Math.log1p`. -/
noncomputable def log1p (x : ℝ) : ℝ := Real.log (1 + x)

/-- Return value of `computePostScore`. -/
structure PostScoreResult where
  postScore : ℝ
  ageDays : ℚ
  recency : ℝ
  up : ℚ
  cm : ℚ
  patternBonus : ℝ
  painWordsBonus : ℝ

/-- `computePostScore` from `score.ts`.  Callers that omit `now` pass the
current clock and callers that omit `tauDays` pass 30 (the source
defaults). -/
noncomputable def computePostScore (post : RedditPost) (patternMatched : Bool)
    (representativePhrase : JSStr) (now : ℚ) (tauDays : ℝ) : PostScoreResult :=
  let createdMs := post.createdUtc * 1000
  let ageDays : ℚ := max 0 ((now - createdMs) / (1000 * 60 * 60 * 24))
  let recency : ℝ := Real.exp (-(ageDays : ℝ) / tauDays)
  let up : ℚ := max 0 post.upvotes
  let cm : ℚ := max 0 post.comments
  let phraseLower := jsLower representativePhrase
  let patternBonus : ℝ :=
    if patternMatched then
      (if HIGHLIGHT_KEYWORDS.any (fun k => jsIncludes phraseLower k)
        then 1 + 0.25 else 1)
    else 0
  let painHits := countPainWords (post.title ++ '\n' :: post.selftext)
  let painWordsBonus : ℝ := min 1.2 ((painHits : ℝ) * 0.3)
  let postScore := log1p ((up : ℝ)) + 0.5 * log1p ((cm : ℝ)) + 0.8 * recency
      + 2.0 * patternBonus + 1.0 * painWordsBonus
  ⟨postScore, ageDays, recency, up, cm, patternBonus, painWordsBonus⟩

/-- Return value of `computeIdeaScore`. -/
structure IdeaScoreResult where
  ideaScore : ℝ
  sumPost : ℝ
  diversity : ℝ
  volume : ℝ

/-- `computeIdeaScore` from `score.ts`. -/
noncomputable def computeIdeaScore (postScores : List ℝ)
    (uniqueSubreddits : ℕ) : IdeaScoreResult :=
  let sumPost := postScores.foldl (· + ·) 0
  let diversity : ℝ := min 1.5 (1 + 0.1 * max 0 ((uniqueSubreddits : ℝ) - 1))
  let volume := log1p ((postScores.length : ℝ))
  ⟨sumPost * diversity * (0.8 + 0.2 * volume), sumPost, diversity, volume⟩

theorem log1p_mono {x y : ℝ} (hx : 0 ≤ x) (hxy : x ≤ y) : log1p x ≤ log1p y :=
  Real.log_le_log (by linarith) (by linarith)

/-- C7: holding every other input fixed, `computePostScore` is monotone
non-decreasing in `upvotes` and in `comments`, and strictly decreasing in
the post's age (smaller `createdUtc` = older post) as long as the age is
in the clamped region `ageDays ≥ 0` (the recency floor) and the decay
horizon is positive (the source default is `tauDays = 30`). -/
theorem computePostScore_monotone (p : RedditPost) (pm : Bool) (ph : JSStr)
    (now : ℚ) (tau : ℝ) (u₁ u₂ c₁ c₂ t₁ t₂ : ℚ) :
    (u₁ ≤ u₂ →
      (computePostScore { p with upvotes := u₁ } pm ph now tau).postScore ≤
        (computePostScore { p with upvotes := u₂ } pm ph now tau).postScore) ∧
    (c₁ ≤ c₂ →
      (computePostScore { p with comments := c₁ } pm ph now tau).postScore ≤
        (computePostScore { p with comments := c₂ } pm ph now tau).postScore) ∧
    (0 < tau → t₁ * 1000 ≤ now → t₂ < t₁ →
      (computePostScore { p with createdUtc := t₂ } pm ph now tau).postScore <
        (computePostScore { p with createdUtc := t₁ } pm ph now tau).postScore) := by
  refine ⟨?_, ?_, ?_⟩
  · intro h
    have key : log1p ((max 0 u₁ : ℚ) : ℝ) ≤ log1p ((max 0 u₂ : ℚ) : ℝ) := by
      apply log1p_mono
      · exact_mod_cast le_max_left 0 u₁
      · exact_mod_cast max_le_max (le_refl (0 : ℚ)) h
    simp only [computePostScore]
    linarith
  · intro h
    have key : log1p ((max 0 c₁ : ℚ) : ℝ) ≤ log1p ((max 0 c₂ : ℚ) : ℝ) := by
      apply log1p_mono
      · exact_mod_cast le_max_left 0 c₁
      · exact_mod_cast max_le_max (le_refl (0 : ℚ)) h
    simp only [computePostScore]
    linarith
  · intro htau h1 h2
    have hden : (0 : ℚ) < 1000 * 60 * 60 * 24 := by norm_num
    have hraw1 : (0 : ℚ) ≤ (now - t₁ * 1000) / (1000 * 60 * 60 * 24) :=
      div_nonneg (by linarith) (le_of_lt hden)
    have hraw12 : (now - t₁ * 1000) / (1000 * 60 * 60 * 24) <
        (now - t₂ * 1000) / (1000 * 60 * 60 * 24) := by
      apply div_lt_div_of_pos_right ?_ hden
      linarith
    have hm1 : max (0 : ℚ) ((now - t₁ * 1000) / (1000 * 60 * 60 * 24)) =
        (now - t₁ * 1000) / (1000 * 60 * 60 * 24) := max_eq_right hraw1
    have hm2 : max (0 : ℚ) ((now - t₂ * 1000) / (1000 * 60 * 60 * 24)) =
        (now - t₂ * 1000) / (1000 * 60 * 60 * 24) :=
      max_eq_right (hraw1.trans hraw12.le)
    have hexp : Real.exp (-(((now - t₂ * 1000) / (1000 * 60 * 60 * 24) : ℚ) : ℝ) / tau) <
        Real.exp (-(((now - t₁ * 1000) / (1000 * 60 * 60 * 24) : ℚ) : ℝ) / tau) := by
      apply Real.exp_lt_exp.mpr
      have hcast : (((now - t₁ * 1000) / (1000 * 60 * 60 * 24) : ℚ) : ℝ) <
          (((now - t₂ * 1000) / (1000 * 60 * 60 * 24) : ℚ) : ℝ) := by exact_mod_cast hraw12
      apply div_lt_div_of_pos_right ?_ htau
      linarith
    simp only [computePostScore, hm1, hm2]
    linarith

/-- Concrete post used by scoring witnesses. -/
def wPost : RedditPost :=
  ⟨ "a".toList, "s".toList, "t".toList, [], "u".toList, 0, 0, 0, none⟩

/-- C7, witness: the monotonicity statement applied at a concrete post,
`u : 1 ≤ 2`, `c : 1 ≤ 2`, ages `createdUtc -2 < -1` with `now = 0`,
`tau = 30`. -/
theorem computePostScore_monotone_witness :
    ((computePostScore { wPost with upvotes := 1 } false [] 0 30).postScore ≤
      (computePostScore { wPost with upvotes := 2 } false [] 0 30).postScore) ∧
    ((computePostScore { wPost with comments := 1 } false [] 0 30).postScore ≤
      (computePostScore { wPost with comments := 2 } false [] 0 30).postScore) ∧
    ((computePostScore { wPost with createdUtc := -2 } false [] 0 30).postScore <
      (computePostScore { wPost with createdUtc := -1 } false [] 0 30).postScore) :=
  ⟨(computePostScore_monotone wPost false [] 0 30 1 2 1 2 (-1) (-2)).1 (by norm_num),
    (computePostScore_monotone wPost false [] 0 30 1 2 1 2 (-1) (-2)).2.1 (by norm_num),
    (computePostScore_monotone wPost false [] 0 30 1 2 1 2 (-1) (-2)).2.2
      (by norm_num) (by norm_num) (by norm_num)⟩

theorem computePostScore_pos (post : RedditPost) (pm : Bool) (ph : JSStr)
    (now : ℚ) (tau : ℝ) : 0 < (computePostScore post pm ph now tau).postScore := by
  have h1 : 0 ≤ log1p ((max 0 post.upvotes : ℚ) : ℝ) :=
    Real.log_nonneg (by
      have : (0 : ℝ) ≤ ((max 0 post.upvotes : ℚ) : ℝ) := by
        exact_mod_cast le_max_left (0 : ℚ) post.upvotes
      linarith)
  have h2 : 0 ≤ log1p ((max 0 post.comments : ℚ) : ℝ) :=
    Real.log_nonneg (by
      have : (0 : ℝ) ≤ ((max 0 post.comments : ℚ) : ℝ) := by
        exact_mod_cast le_max_left (0 : ℚ) post.comments
      linarith)
  have hrec : 0 < Real.exp (-((max 0 ((now - post.createdUtc * 1000) /
      (1000 * 60 * 60 * 24)) : ℚ) : ℝ) / tau) := Real.exp_pos _
  have hpb : (0 : ℝ) ≤ (if pm then
      (if HIGHLIGHT_KEYWORDS.any (fun k => jsIncludes (jsLower ph) k)
        then 1 + 0.25 else 1) else 0) := by
    split_ifs <;> norm_num
  have hpw : (0 : ℝ) ≤ min 1.2
      ((countPainWords (post.title ++ '\n' :: post.selftext) : ℝ) * 0.3) :=
    le_min (by norm_num) (by positivity)
  simp only [computePostScore]
  linarith

theorem foldl_add_ge_init (l : List ℝ) :
    ∀ init : ℝ, (∀ x ∈ l, 0 ≤ x) → init ≤ l.foldl (· + ·) init := by
  induction l with
  | nil => intro init _; simp
  | cons x xs ih =>
    intro init h
    rw [List.foldl_cons]
    have hx : 0 ≤ x := h x (List.mem_cons_self x xs)
    have := ih (init + x) (fun y hy => h y (List.mem_cons_of_mem x hy))
    linarith

theorem foldl_add_pos (l : List ℝ) (hne : l ≠ []) (h : ∀ x ∈ l, 0 < x) :
    0 < l.foldl (· + ·) 0 := by
  cases l with
  | nil => exact absurd rfl hne
  | cons x xs =>
    rw [List.foldl_cons]
    have hx : 0 < x := h x (List.mem_cons_self x xs)
    have := foldl_add_ge_init xs (0 + x)
      (fun y hy => (h y (List.mem_cons_of_mem x hy)).le)
    linarith

/-- C8: for a fixed non-empty list of post scores (each the `postScore` of
some `computePostScore` input, hence strictly positive), `computeIdeaScore`
strictly increases in `uniqueSubreddits` until the diversity factor
`min(1.5, 1 + 0.1*(u-1))` saturates at `u = 6`, and is constant from `u ≥ 6`
on. -/
theorem computeIdeaScore_diversity (postScores : List ℝ) (u₁ u₂ : ℕ)
    (hne : postScores ≠ [])
    (hps : ∀ s ∈ postScores, ∃ post pm ph now tau,
      s = (computePostScore post pm ph now tau).postScore) :
    (1 ≤ u₁ → u₁ < u₂ → u₂ ≤ 6 →
      (computeIdeaScore postScores u₁).ideaScore <
        (computeIdeaScore postScores u₂).ideaScore) ∧
    (6 ≤ u₁ → u₁ ≤ u₂ →
      (computeIdeaScore postScores u₁).ideaScore =
        (computeIdeaScore postScores u₂).ideaScore) := by
  have hpos : ∀ s ∈ postScores, 0 < s := by
    intro s hs
    obtain ⟨post, pm, ph, now, tau, rfl⟩ := hps s hs
    exact computePostScore_pos post pm ph now tau
  have hsum : 0 < postScores.foldl (· + ·) 0 := foldl_add_pos postScores hne hpos
  have hfac : (0 : ℝ) < 0.8 + 0.2 * log1p ((postScores.length : ℝ)) := by
    have hn : (0 : ℝ) ≤ (postScores.length : ℝ) := by positivity
    have : 0 ≤ log1p ((postScores.length : ℝ)) := Real.log_nonneg (by linarith)
    linarith
  constructor
  · intro h1 h12 h6
    have h1b : 1 ≤ u₂ := le_of_lt (lt_of_le_of_lt h1 h12)
    have hd1 : min (1.5 : ℝ) (1 + 0.1 * max 0 ((u₁ : ℝ) - 1)) =
        1 + 0.1 * ((u₁ : ℝ) - 1) := by
      have hc1 : (1 : ℝ) ≤ (u₁ : ℝ) := by exact_mod_cast h1
      have hc6 : (u₁ : ℝ) ≤ 6 := by exact_mod_cast le_of_lt (lt_of_lt_of_le h12 h6)
      rw [max_eq_right (by linarith), min_eq_right (by linarith)]
    have hd2 : min (1.5 : ℝ) (1 + 0.1 * max 0 ((u₂ : ℝ) - 1)) =
        1 + 0.1 * ((u₂ : ℝ) - 1) := by
      have hc1 : (1 : ℝ) ≤ (u₂ : ℝ) := by exact_mod_cast h1b
      have hc6 : (u₂ : ℝ) ≤ 6 := by exact_mod_cast h6
      rw [max_eq_right (by linarith), min_eq_right (by linarith)]
    have hdlt : 1 + 0.1 * ((u₁ : ℝ) - 1) < 1 + 0.1 * ((u₂ : ℝ) - 1) := by
      have : (u₁ : ℝ) < (u₂ : ℝ) := by exact_mod_cast h12
      linarith
    simp only [computeIdeaScore, hd1, hd2]
    exact mul_lt_mul_of_pos_right (mul_lt_mul_of_pos_left hdlt hsum) hfac
  · intro h6 hle
    have hd1 : min (1.5 : ℝ) (1 + 0.1 * max 0 ((u₁ : ℝ) - 1)) = 1.5 := by
      have hc : (6 : ℝ) ≤ (u₁ : ℝ) := by exact_mod_cast h6
      have : (5 : ℝ) ≤ max 0 ((u₁ : ℝ) - 1) := le_max_of_le_right (by linarith)
      exact min_eq_left (by linarith)
    have hd2 : min (1.5 : ℝ) (1 + 0.1 * max 0 ((u₂ : ℝ) - 1)) = 1.5 := by
      have hc : (6 : ℝ) ≤ (u₂ : ℝ) := by exact_mod_cast le_trans h6 hle
      have : (5 : ℝ) ≤ max 0 ((u₂ : ℝ) - 1) := le_max_of_le_right (by linarith)
      exact min_eq_left (by linarith)
    simp only [computeIdeaScore, hd1, hd2]

/-- C8, witness: the strict part applied to the singleton score list of a
concrete `computePostScore` output, `u : 2 < 3`. -/
theorem computeIdeaScore_diversity_witness :
    (computeIdeaScore [(computePostScore wPost false [] 0 30).postScore] 2).ideaScore <
      (computeIdeaScore [(computePostScore wPost false [] 0 30).postScore] 3).ideaScore := by
  refine (computeIdeaScore_diversity _ 2 3 (by simp) ?_).1
    (by norm_num) (by norm_num) (by norm_num)
  intro s hs
  rw [List.mem_singleton] at hs
  exact ⟨wPost, false, [], 0, 30, hs⟩

/-! ## `src/lib/ideas/trend.ts` -/

/-- Return value of `computeTrend`. -/
structure TrendResult where
  bins : List ℕ
  slope : ℚ
deriving DecidableEq

/-- `computeTrend` from `trend.ts`.  `weeks = max(1, ceil(windowDays/7))`
buckets start at zero; every post inside the window increments the bucket
`min(weeks-1, weeks-1-floor(ageDays/7))`.  That `Math.min` clamps only the
upper end (it is in fact a no-op, since `floor(ageDays/7) ≥ 0`); when the
computed index is negative, the JS statement `bins[binIndex] += 1` writes a
named property on the array object and leaves every array element, the
length and the iteration untouched, so the embedding leaves `bins`
unchanged in that case.  The slope is the OLS slope over bucket index,
defined as 0 when the denominator is 0. -/
def computeTrend (posts : List ClusterPost) (windowDays : ℕ) (now : ℚ) : TrendResult :=
  let weeks : ℕ := max 1 (Int.toNat ⌈(windowDays : ℚ) / 7⌉)
  let bins : List ℕ := posts.foldl (fun bins post =>
    let ageDays : ℚ := max 0 ((now - post.createdUtc * 1000) / (1000 * 60 * 60 * 24))
    if (windowDays : ℚ) < ageDays then bins
    else
      let binIndex : ℤ := min ((weeks : ℤ) - 1) ((weeks : ℤ) - 1 - ⌊ageDays / 7⌋)
      if binIndex < 0 then bins
      else bins.set binIndex.toNat (bins.getD binIndex.toNat 0 + 1))
    (List.replicate weeks 0)
  let xMean : ℚ := ((bins.length : ℚ) - 1) / 2
  let yMean : ℚ := ((bins.map (fun v => (v : ℚ))).foldl (· + ·) 0) / (bins.length : ℚ)
  let numerator : ℚ :=
    (bins.enum.map (fun p => ((p.1 : ℚ) - xMean) * ((p.2 : ℚ) - yMean))).foldl (· + ·) 0
  let denominator : ℚ :=
    (bins.enum.map (fun p => ((p.1 : ℚ) - xMean) * ((p.1 : ℚ) - xMean))).foldl (· + ·) 0
  ⟨bins, if denominator = 0 then 0 else numerator / denominator⟩

/-- Concrete post used by the trend boundary evaluation: created at the
epoch. -/
def c4Post : ClusterPost :=
  ⟨ "a".toList, "s".toList, "u".toList, "t".toList, 0, 0, 0, none, [], []⟩

/-- C4, code evaluation at the failing input: with `windowDays = 7` and
`now` exactly 7 days (604800000 ms) after the post's creation, the post's
age is exactly 7 days, the discard test `ageDays > windowDays` does not
fire, yet the computed bucket index is `min(0, 0 - floor(7/7)) = -1` and
the increment is lost: the single remaining post lands in no bucket
(`bins = [0]`).  The claim (and the spec) say the index is clamped into
`[0, weeks-1]`, which would count the post exactly once; the source's
`Math.min` clamps the wrong end. -/
theorem computeTrend_boundary_drops_post :
    computeTrend [c4Post] 7 604800000 = ⟨[0], 0⟩ ∧
      max (0 : ℚ) ((604800000 - (0 : ℚ) * 1000) / (1000 * 60 * 60 * 24)) = 7 ∧
      ¬((7 : ℚ) < 7) := by
  refine ⟨?_, by norm_num, by norm_num⟩
  norm_num [computeTrend, c4Post, List.foldl_cons, List.foldl_nil, List.enum,
    List.enumFrom, List.map, List.replicate]

/-! ## `src/lib/ideas/cluster.ts` (two observed revisions: one with a
minimum cluster size of 2, one without a minimum-size gate) -/

/-- `IdeaCluster` from `types.ts`. -/
structure IdeaCluster where
  id : JSStr
  title : JSStr
  canonical : JSStr
  phrases : List JSStr
  posts : List ClusterPost
  score : ℝ
  postsCount : ℕ
  subsCount : ℕ
  upvotesSum : ℚ
  commentsSum : ℚ
  trend : List ℕ
  trendSlope : ℚ
  topKeywords : List JSStr
  sampleSnippet : JSStr
deriving Inhabited

/-- `ClusterEntry` from `cluster.ts`. -/
structure ClusterEntry where
  post : RedditPost
  phrase : ProblemPhrase
deriving DecidableEq, Inhabited

/-- `ClusterDraft` from `cluster.ts`; the phrase-count `Map` is an
insertion-ordered association list. -/
structure ClusterDraft where
  canonical : JSStr
  entries : List ClusterEntry
  phraseCounts : List (JSStr × ℕ)
deriving DecidableEq, Inhabited

/-- `KEYWORD_STOPWORDS` from `cluster.ts`. -/
def KEYWORD_STOPWORDS : List JSStr :=
  [ "to".toList, "into".toList, "from".toList, "for".toList, "and".toList,
    "the".toList, "a".toList, "an".toList, "of".toList, "on".toList,
    "in".toList, "with".toList, "my".toList, "our".toList, "their".toList,
    "your".toList, "how".toList, "do".toList, "i".toList, "we".toList ]

/-- Modelled from the spec: `hashCanonical` produces a deterministic
content hash (the source calls SHA-1 from `node:crypto`, an external
library outside this repository's sources, and keeps the first 10 hex
digits).  It is modelled as a fixed deterministic pure function of the
input string — a polynomial content hash rendered in hex, truncated to 10
characters.  No claim depends on the hash's value, only on its being a
pure function of the input. -/
def hashCanonical (canonical : JSStr) : JSStr :=
  let h := canonical.foldl (fun acc c => (acc * 131 + c.toNat) % (2 ^ 40)) 7
  (Nat.toDigits 16 h).take 10

/-- `representativePhrase` from `cluster.ts`: the first phrase attaining
the maximal count, scanning the map in insertion order, starting from
`bestPhrase = ""`, `bestCount = -1`. -/
def representativePhrase (draft : ClusterDraft) : JSStr :=
  (draft.phraseCounts.foldl
    (fun best p => if (p.2 : ℤ) > best.2 then (p.1, (p.2 : ℤ)) else best)
    (([] : JSStr), (-1 : ℤ))).1

/-- `mergeDrafts` from `cluster.ts`: the target absorbs the source's
entries and phrase counts (functional rendering of the in-place
mutation). -/
def mergeDrafts (target source : ClusterDraft) : ClusterDraft :=
  ⟨target.canonical,
    target.entries ++ source.entries,
    source.phraseCounts.foldl
      (fun pc p => mapSet pc p.1 ((mapGet? pc p.1).getD 0 + p.2))
      target.phraseCounts⟩

/-- `buildDrafts` from `cluster.ts`: group the problem phrases by
canonical signature, skipping phrases whose post is missing from the post
map (`new Map(posts.map(p => [p.id, p]))`, later duplicate ids winning). -/
def buildDrafts (posts : List RedditPost) (problems : List ProblemPhrase) :
    List ClusterDraft :=
  let postMap := posts.foldl (fun m post => mapSet m post.id post) []
  let drafts := problems.foldl (fun drafts problem =>
    match mapGet? postMap problem.postId with
    | none => drafts
    | some post =>
      let draft := (mapGet? drafts problem.canonical).getD
        ⟨problem.canonical, [], []⟩
      let draft2 : ClusterDraft := ⟨draft.canonical,
        draft.entries ++ [⟨post, problem⟩],
        mapSet draft.phraseCounts problem.phrase
          ((mapGet? draft.phraseCounts problem.phrase).getD 0 + 1)⟩
      mapSet drafts problem.canonical draft2) []
  drafts.map (fun p => p.2)

/-- Inner loop of `mergeSimilarDrafts`: compare the draft's representative
against each already-accepted draft in order and merge into the first one
scoring at least 0.85; otherwise append the draft at the end. -/
def mergeIntoList (reprPhrase : JSStr) (draft : ClusterDraft) :
    List ClusterDraft → List ClusterDraft
  | [] => [draft]
  | existing :: rest =>
    if (85 / 100 : ℚ) ≤ similarity (jsLower reprPhrase)
        (jsLower (representativePhrase existing)) then
      mergeDrafts existing draft :: rest
    else existing :: mergeIntoList reprPhrase draft rest

/-- `mergeSimilarDrafts` from `cluster.ts`: sort drafts by entry count
descending (stable), then fold them into the accepted list. -/
def mergeSimilarDrafts (drafts : List ClusterDraft) : List ClusterDraft :=
  let sorted := jsSortBy
    (fun a b => decide (b.entries.length < a.entries.length)) drafts
  sorted.foldl
    (fun merged draft => mergeIntoList (representativePhrase draft) draft merged) []

/-- Keyword-token filter of `topKeywords`: the regex `[^a-z0-9\s]`
replaces everything but lower-case letters, digits and whitespace by a
space. -/
def kwKeepChar (c : Char) : Char :=
  if ('a' ≤ c ∧ c ≤ 'z') ∨ ('0' ≤ c ∧ c ≤ '9') ∨ isWsChar c = true then c else ' '

/-- `topKeywords` from `cluster.ts`: count non-stop-word tokens over all
phrases, sort by count descending (stable), take the first 5 keywords. -/
def topKeywords (phrases : List JSStr) : List JSStr :=
  let counts := phrases.foldl (fun counts phrase =>
    ((((jsLower phrase).map kwKeepChar).splitOnP isWsChar).filter
        (fun t => !t.isEmpty && !(KEYWORD_STOPWORDS.contains t))).foldl
      (fun c token => mapSet c token ((mapGet? c token).getD 0 + 1)) counts) []
  ((jsSortBy (fun a b => decide (b.2 < a.2)) counts).take 5).map (fun p => p.1)

/-- Comparator of the per-post entry sort in `buildClusterPosts`: primary
cues first, then longer phrase text first.  `entryLt a b` holds when the
comparator places `a` strictly before `b`. -/
def entryLt (a b : ClusterEntry) : Bool :=
  let ap : ℕ := if PRIMARY_CUE_IDS.contains a.phrase.cueId then 1 else 0
  let bp : ℕ := if PRIMARY_CUE_IDS.contains b.phrase.cueId then 1 else 0
  decide (bp < ap) ||
    (decide (ap = bp) && decide (b.phrase.phrase.length < a.phrase.phrase.length))

/-- `buildClusterPosts` from `cluster.ts`: group entries by post id
(insertion order), choose the strongest entry per post (primary cue, then
longest phrase), and emit one `ClusterPost` per distinct post. -/
def buildClusterPosts (draft : ClusterDraft) : List ClusterPost :=
  let entriesByPost := draft.entries.foldl
    (fun m entry =>
      mapSet m entry.post.id ((mapGet? m entry.post.id).getD [] ++ [entry])) []
  entriesByPost.map (fun p =>
    let chosen := (jsSortBy entryLt p.2).headI
    ⟨p.1, chosen.post.subreddit, chosen.post.url, chosen.post.title,
      chosen.post.createdUtc, chosen.post.upvotes, chosen.post.comments,
      chosen.post.author, chosen.phrase.snippet, chosen.phrase.phrase⟩)

/-- `charAt(0).toUpperCase() + slice(1)` on a JS string. -/
def capitalizeFirst : JSStr → JSStr
  | [] => []
  | c :: cs => asciiUpper c :: cs

/-- Alternatives of the leading-pronoun regex of `generateIdeaTitle`
(`/^(i|we|my|our|how to|need to|want to|trying to)\s+/i`), in alternation
order. -/
def TITLE_LEAD_ALTS : List JSStr :=
  [ "i".toList, "we".toList, "my".toList, "our".toList, "how to".toList,
    "need to".toList, "want to".toList, "trying to".toList ]

/-- Strip the leading-pronoun match: the first alternative that matches
case-insensitively at the start and is followed by at least one whitespace
character is removed together with the whitespace run. -/
def stripLeadCue (s : JSStr) : JSStr :=
  match TITLE_LEAD_ALTS.find? (fun alt =>
      jsLower (s.take alt.length) == alt &&
        (match s.drop alt.length with
          | [] => false
          | c :: _ => isWsChar c)) with
  | some alt => (s.drop alt.length).dropWhile (fun c => isWsChar c)
  | none => s

/-- Strip trailing question marks (`replace(/\?+$/, "")`). -/
def dropTrailingQs (s : JSStr) : JSStr :=
  (s.reverse.dropWhile (fun c => c == '?')).reverse

/-- `String.prototype.trim` on the engine's whitespace characters. -/
def jsTrim (s : JSStr) : JSStr :=
  ((s.dropWhile (fun c => isWsChar c)).reverse.dropWhile
    (fun c => isWsChar c)).reverse

/-- `generateIdeaTitle` from the first observed revision of `cluster.ts`:
pattern-based titles from the top 3 keywords, then a cleaned
representative phrase, then keyword or generic fallbacks. -/
def generateIdeaTitle (draft : ClusterDraft) (keywords : List JSStr) : JSStr :=
  let reprPhrase := representativePhrase draft
  let mainKeywords := keywords.take 3
  let autoKws : List JSStr :=
    [ "automate".toList, "automation".toList, "automatic".toList ]
  let toolKws : List JSStr :=
    [ "tool".toList, "platform".toList, "app".toList, "solution".toList ]
  let connKws : List JSStr :=
    [ "integrate".toList, "sync".toList, "connect".toList ]
  if mainKeywords.any (fun kw => autoKws.contains kw) then
    "Automate ".toList ++
      jsJoin [' '] (mainKeywords.filter (fun kw => !(autoKws.contains kw))) ++
      " workflows".toList
  else if mainKeywords.any (fun kw => toolKws.contains kw) then
    match (mainKeywords.filter (fun kw => !(toolKws.contains kw))).head? with
    | some subject => capitalizeFirst subject ++ " management tool".toList
    | none => "Workflow management tool".toList
  else if mainKeywords.any (fun kw => connKws.contains kw) then
    jsJoin ( " and ".toList)
        ((mainKeywords.filter (fun kw => !(connKws.contains kw))).take 2) ++
      " integration".toList
  else if mainKeywords.contains ( "invoice".toList) then
    "Invoice processing automation".toList
  else if mainKeywords.contains ( "email".toList) then
    "Email workflow automation".toList
  else if mainKeywords.contains ( "sheet".toList) ||
      mainKeywords.contains ( "spreadsheet".toList) then
    "Spreadsheet automation tool".toList
  else if mainKeywords.contains ( "thumbnail".toList) then
    "Thumbnail generation automation".toList
  else if mainKeywords.contains ( "github".toList) then
    "GitHub workflow automation".toList
  else if mainKeywords.contains ( "jira".toList) then
    "Jira task automation".toList
  else
    let cleanRepr := jsTrim (dropTrailingQs (stripLeadCue reprPhrase))
    if 3 < cleanRepr.length ∧ cleanRepr.length < 50 then
      capitalizeFirst cleanRepr
    else
      match mainKeywords.head? with
      | some kw => capitalizeFirst kw ++ " automation tool".toList
      | none => "Workflow automation tool".toList

/-- Models `Number(ideaScore.toFixed(2))` in exact real arithmetic: round
to the nearest multiple of 1/100. -/
noncomputable def roundTo2 (x : ℝ) : ℝ := ((round (x * 100) : ℤ) : ℝ) / 100

/-- Cluster emission of the first observed `clusterIdeas` revision
(`MIN_CLUSTER_SIZE = 2`): one loop iteration of the `for (const draft of
mergedDrafts)` body, returning `none` where the source says `continue`. -/
noncomputable def emitCluster3 (windowDays : ℕ) (now : ℚ)
    (draft : ClusterDraft) : Option IdeaCluster :=
  let clusterPosts := buildClusterPosts draft
  if clusterPosts.length = 0 ∨ clusterPosts.length < 2 then none
  else
    let resolved := clusterPosts.filterMap (fun cp =>
      (draft.entries.find? (fun e => decide (e.post.id = cp.id))).map
        (fun e => (cp, e.post)))
    let postScores := resolved.map (fun r =>
      (computePostScore r.2
        ((draft.entries.filter (fun e => decide (e.post.id = r.1.id))).any
          (fun e => PRIMARY_CUE_IDS.contains e.phrase.cueId))
        r.1.problemPhrase now 30).postScore)
    let upvotesSum := (resolved.map (fun r => r.2.upvotes)).foldl (· + ·) 0
    let commentsSum := (resolved.map (fun r => r.2.comments)).foldl (· + ·) 0
    if postScores.length = 0 then none
    else
      let uniqueSubreddits :=
        (jsSetDedup (clusterPosts.map (fun p => p.subreddit))).length
      let tr := computeTrend clusterPosts windowDays now
      let keywords := topKeywords (draft.phraseCounts.map (fun p => p.1))
      some
        { id := "idea_".toList ++
            hashCanonical (draft.canonical ++ '_' :: (toString windowDays).toList)
          title := generateIdeaTitle draft keywords
          canonical := draft.canonical
          phrases := draft.phraseCounts.map (fun p => p.1)
          posts := clusterPosts
          score := roundTo2 (computeIdeaScore postScores uniqueSubreddits).ideaScore
          postsCount := clusterPosts.length
          subsCount := uniqueSubreddits
          upvotesSum := upvotesSum
          commentsSum := commentsSum
          trend := tr.bins
          trendSlope := tr.slope
          topKeywords := keywords
          sampleSnippet := clusterPosts.headI.matchedSnippet }

/-- Cluster emission of the second observed `clusterIdeas` revision: same
computation but the only size gate is `clusterPosts.length === 0`, and the
title is the raw representative phrase. -/
noncomputable def emitCluster4 (windowDays : ℕ) (now : ℚ)
    (draft : ClusterDraft) : Option IdeaCluster :=
  let clusterPosts := buildClusterPosts draft
  if clusterPosts.length = 0 then none
  else
    let resolved := clusterPosts.filterMap (fun cp =>
      (draft.entries.find? (fun e => decide (e.post.id = cp.id))).map
        (fun e => (cp, e.post)))
    let postScores := resolved.map (fun r =>
      (computePostScore r.2
        ((draft.entries.filter (fun e => decide (e.post.id = r.1.id))).any
          (fun e => PRIMARY_CUE_IDS.contains e.phrase.cueId))
        r.1.problemPhrase now 30).postScore)
    let upvotesSum := (resolved.map (fun r => r.2.upvotes)).foldl (· + ·) 0
    let commentsSum := (resolved.map (fun r => r.2.comments)).foldl (· + ·) 0
    if postScores.length = 0 then none
    else
      let uniqueSubreddits :=
        (jsSetDedup (clusterPosts.map (fun p => p.subreddit))).length
      let tr := computeTrend clusterPosts windowDays now
      some
        { id := "idea_".toList ++
            hashCanonical (draft.canonical ++ '_' :: (toString windowDays).toList)
          title := representativePhrase draft
          canonical := draft.canonical
          phrases := draft.phraseCounts.map (fun p => p.1)
          posts := clusterPosts
          score := roundTo2 (computeIdeaScore postScores uniqueSubreddits).ideaScore
          postsCount := clusterPosts.length
          subsCount := uniqueSubreddits
          upvotesSum := upvotesSum
          commentsSum := commentsSum
          trend := tr.bins
          trendSlope := tr.slope
          topKeywords := topKeywords (draft.phraseCounts.map (fun p => p.1))
          sampleSnippet := clusterPosts.headI.matchedSnippet }

/-- `clusterIdeas` from the first observed revision of `cluster.ts` (the
one with `MIN_CLUSTER_SIZE = 2`).  `now` is the `Date.now()` instant the
source reads at the start of the run, made an explicit input. -/
noncomputable def clusterIdeas3 (posts : List RedditPost)
    (problems : List ProblemPhrase) (windowDays : ℕ) (now : ℚ) :
    List IdeaCluster :=
  if problems.length = 0 then []
  else
    jsSortBy (fun a b => decide (b.score < a.score))
      ((mergeSimilarDrafts (buildDrafts posts problems)).filterMap
        (emitCluster3 windowDays now))

/-- `clusterIdeas` from the second observed revision of `cluster.ts` (no
minimum-size gate).  `now` is the `Date.now()` instant the source reads at
the start of the run, made an explicit input. -/
noncomputable def clusterIdeas4 (posts : List RedditPost)
    (problems : List ProblemPhrase) (windowDays : ℕ) (now : ℚ) :
    List IdeaCluster :=
  if problems.length = 0 then []
  else
    jsSortBy (fun a b => decide (b.score < a.score))
      ((mergeSimilarDrafts (buildDrafts posts problems)).filterMap
        (emitCluster4 windowDays now))

/-- C1, amended part: every cluster emitted by the `clusterIdeas` revision
that carries `MIN_CLUSTER_SIZE = 2` has at least 2 distinct posts. -/
theorem clusterIdeas3_min_two_posts (posts : List RedditPost)
    (problems : List ProblemPhrase) (w : ℕ) (now : ℚ) (c : IdeaCluster)
    (hc : c ∈ clusterIdeas3 posts problems w now) : 2 ≤ c.postsCount := by
  by_cases hp : problems.length = 0
  · simp only [clusterIdeas3, if_pos hp] at hc
    cases hc
  · simp only [clusterIdeas3, if_neg hp] at hc
    rw [mem_jsSortBy, List.mem_filterMap] at hc
    obtain ⟨draft, _, hemit⟩ := hc
    simp only [emitCluster3] at hemit
    by_cases hg : (buildClusterPosts draft).length = 0 ∨
        (buildClusterPosts draft).length < 2
    · rw [if_pos hg] at hemit; cases hemit
    · rw [if_neg hg] at hemit
      push_neg at hg
      split at hemit
      · cases hemit
      · have hrec := Option.some.inj hemit
        have hpc : c.postsCount = (buildClusterPosts draft).length := by
          rw [← hrec]
        omega

/-- First concrete post of the two-post witness run. -/
def w1PostA : RedditPost := ⟨['a'], ['s'], ['t'], [], ['u'], 0, 1, 1, none⟩

/-- Second concrete post of the two-post witness run. -/
def w1PostB : RedditPost := ⟨['b'], ['s'], ['t'], [], ['u'], 0, 1, 1, none⟩

/-- Problem phrase of the first witness post (canonical signature `x`). -/
def w1ProbA : ProblemPhrase := ⟨['a'], ['f', 'o', 'o'], ['x'], ['s', 'n'], ['z']⟩

/-- Problem phrase of the second witness post (same canonical signature). -/
def w1ProbB : ProblemPhrase := ⟨['b'], ['b', 'a', 'r'], ['x'], ['s', 'n'], ['z']⟩

/-- C1, witness: a two-post run emits a cluster, and the theorem applies to
it. -/
theorem clusterIdeas3_min_two_posts_witness :
    (clusterIdeas3 [w1PostA, w1PostB] [w1ProbA, w1ProbB] 30 0).headI ∈
        clusterIdeas3 [w1PostA, w1PostB] [w1ProbA, w1ProbB] 30 0 ∧
      2 ≤ (clusterIdeas3 [w1PostA, w1PostB] [w1ProbA, w1ProbB] 30 0).headI.postsCount := by
  have hbool : (clusterIdeas3 [w1PostA, w1PostB] [w1ProbA, w1ProbB] 30 0).isEmpty
      = false := by decide
  have hne : clusterIdeas3 [w1PostA, w1PostB] [w1ProbA, w1ProbB] 30 0 ≠ [] := by
    intro heq
    rw [heq] at hbool
    simp at hbool
  have hmem : (clusterIdeas3 [w1PostA, w1PostB] [w1ProbA, w1ProbB] 30 0).headI ∈
      clusterIdeas3 [w1PostA, w1PostB] [w1ProbA, w1ProbB] 30 0 := by
    cases hx : clusterIdeas3 [w1PostA, w1PostB] [w1ProbA, w1ProbB] 30 0 with
    | nil => exact absurd hx hne
    | cons c rest => exact List.mem_cons_self c rest
  exact ⟨hmem, clusterIdeas3_min_two_posts _ _ _ _ _ hmem⟩

/-- Concrete post of the single-post counterexample run. -/
def cxPost : RedditPost := ⟨['a'], ['s'], ['t'], [], ['u'], 0, 1, 1, none⟩

/-- Problem phrase of the single-post counterexample run. -/
def cxProb : ProblemPhrase := ⟨['a'], ['f', 'o', 'o'], ['x'], ['s', 'n'], ['z']⟩

/-- C1, counterexample: the `clusterIdeas` revision without the
minimum-size gate emits a cluster with `postsCount = 1` for a single-post,
single-phrase input, refuting the claim for that revision. -/
theorem clusterIdeas4_single_post_cluster :
    ¬ (∀ c ∈ clusterIdeas4 [cxPost] [cxProb] 7 0, 2 ≤ c.postsCount) := by
  intro h
  have hmap : (clusterIdeas4 [cxPost] [cxProb] 7 0).map (fun c => c.postsCount)
      = [1] := by decide
  cases hl : clusterIdeas4 [cxPost] [cxProb] 7 0 with
  | nil => rw [hl] at hmap; simp at hmap
  | cons c rest =>
    rw [hl] at hmap
    simp only [List.map_cons] at hmap
    injection hmap with h1 h2
    have hc : c ∈ clusterIdeas4 [cxPost] [cxProb] 7 0 := by
      rw [hl]; exact List.mem_cons_self c rest
    have := h c hc
    omega

/-- C3, amended: with the run instant `now` (the source's internal
`Date.now()` call) made an explicit input, both `clusterIdeas` revisions
are deterministic pure functions: identical posts, problems, window and
run instant produce identical output. -/
theorem clusterIdeas_deterministic (posts posts' : List RedditPost)
    (problems problems' : List ProblemPhrase) (w w' : ℕ) (now now' : ℚ)
    (h1 : posts = posts') (h2 : problems = problems') (h3 : w = w')
    (h4 : now = now') :
    clusterIdeas3 posts problems w now = clusterIdeas3 posts' problems' w' now' ∧
      clusterIdeas4 posts problems w now = clusterIdeas4 posts' problems' w' now' := by
  subst h1; subst h2; subst h3; subst h4
  exact ⟨rfl, rfl⟩

/-- C3, witness: the amended determinism statement applied at the concrete
single-post run. -/
theorem clusterIdeas_deterministic_witness :
    clusterIdeas3 [cxPost] [cxProb] 7 0 = clusterIdeas3 [cxPost] [cxProb] 7 0 ∧
      clusterIdeas4 [cxPost] [cxProb] 7 0 = clusterIdeas4 [cxPost] [cxProb] 7 0 :=
  clusterIdeas_deterministic [cxPost] [cxPost] [cxProb] [cxProb] 7 7 0 0 rfl rfl rfl rfl

/-- The single `ClusterPost` produced by `buildClusterPosts` on the
counterexample input. -/
def cxClusterPost : ClusterPost :=
  ⟨['a'], ['s'], ['u'], ['t'], 0, 1, 1, none, ['s', 'n'], ['f', 'o', 'o']⟩

/-- The single `ClusterDraft` built from the counterexample input. -/
def cxDraft : ClusterDraft :=
  ⟨['x'], [⟨cxPost, cxProb⟩], [(['f', 'o', 'o'], 1)]⟩

theorem cx_buildDrafts : buildDrafts [cxPost] [cxProb] = [cxDraft] := by decide

theorem cx_mergeSimilarDrafts : mergeSimilarDrafts [cxDraft] = [cxDraft] := by decide

theorem cx_buildClusterPosts : buildClusterPosts cxDraft = [cxClusterPost] := by decide

theorem cx_resolved :
    ([cxClusterPost] : List ClusterPost).filterMap (fun cp =>
      (cxDraft.entries.find? (fun e => decide (e.post.id = cp.id))).map
        (fun e => (cp, e.post))) = [(cxClusterPost, cxPost)] := by decide

theorem cx_patternMatched :
    ((cxDraft.entries.filter (fun e => decide (e.post.id = cxClusterPost.id))).any
      (fun e => PRIMARY_CUE_IDS.contains e.phrase.cueId)) = false := by decide

theorem clusterIdeas4_cx_trend (now : ℚ) :
    (clusterIdeas4 [cxPost] [cxProb] 7 now).map (fun c => c.trend) =
      [(computeTrend [cxClusterPost] 7 now).bins] := by
  unfold clusterIdeas4
  rw [if_neg (by decide : ¬ (([cxProb] : List ProblemPhrase).length = 0)),
    cx_buildDrafts, cx_mergeSimilarDrafts]
  unfold emitCluster4
  simp only [List.filterMap_cons, List.filterMap_nil]
  rw [cx_buildClusterPosts]
  rw [if_neg (by decide : ¬ (([cxClusterPost] : List ClusterPost).length = 0))]
  rw [cx_resolved]
  simp only [List.map_cons, List.map_nil, List.length_cons, List.length_nil,
    Nat.zero_add]
  rw [if_neg (by decide : ¬ ((1 : ℕ) = 0))]
  dsimp only []
  simp only [jsSortBy, jsInsert, List.map_cons, List.map_nil]

set_option maxHeartbeats 1000000 in
/-- C3, counterexample: two runs of `clusterIdeas` on the identical posts,
problems and `windowDays = 7`, one at epoch instant 0 and one 8 days
(691200000 ms) later, produce different outputs: the weekly trend of the
emitted cluster is `[1]` in the first run and `[0]` in the second (the
post has aged out of the window), so the outputs differ — the source's
internal `Date.now()` call makes repeated runs on identical input differ. -/
theorem clusterIdeas4_differs_across_run_times :
    clusterIdeas4 [cxPost] [cxProb] 7 0 ≠
      clusterIdeas4 [cxPost] [cxProb] 7 691200000 := by
  intro h
  have h0 := clusterIdeas4_cx_trend 0
  have h8 := clusterIdeas4_cx_trend 691200000
  rw [h] at h0
  have hsame := h0.symm.trans h8
  have e0 : (computeTrend [cxClusterPost] 7 0).bins = [1] := by
    norm_num [computeTrend, cxClusterPost, List.foldl_cons, List.foldl_nil,
      List.replicate, List.set, List.getD, List.get?]
  have e8 : (computeTrend [cxClusterPost] 7 691200000).bins = [0] := by
    norm_num [computeTrend, cxClusterPost, List.foldl_cons, List.foldl_nil,
      List.replicate, List.set, List.getD, List.get?]
  rw [e0, e8] at hsame
  simp at hsame

/-! ## `src/lib/ideas/synthesize.ts` -/

/-- `Set.prototype.add` on the requirement set (insertion order, no
duplicates). -/
def reqAdd (l : List JSStr) (s : JSStr) : List JSStr :=
  if l.contains s then l else l ++ [s]

/-- The PDF-related requirement string added for invoice/receipt
clusters. -/
def reqPdf : JSStr := "PDF parsing pipeline (pdfjs + extraction rules)".toList

/-- `guessRequirements` from `synthesize.ts`: substring-match platform
names in the lower-cased `title + " " + keywords.join(" ")` text and
collect the corresponding requirement strings (deduplicated, insertion
order). -/
def guessRequirements (title : JSStr) (keywords : List JSStr) : List JSStr :=
  let lower := jsLower (title ++ ' ' :: jsJoin [' '] keywords)
  let r0 : List JSStr := []
  let r1 := if jsIncludes lower ( "jira".toList) then
    reqAdd r0 ( "Jira REST API (issues create/update)".toList) else r0
  let r2 := if jsIncludes lower ( "github".toList) then
    reqAdd r1 ( "GitHub Issues API integration".toList) else r1
  let r3 := if jsIncludes lower ( "slack".toList) then
    reqAdd r2 ( "Slack webhook/App event".toList) else r2
  let r4 := if jsIncludes lower ( "discord".toList) then
    reqAdd r3 ( "Discord bot webhook".toList) else r3
  let r5 := if jsIncludes lower ( "gmail".toList) || jsIncludes lower ( "email".toList) then
    reqAdd r4 ( "Gmail API or IMAP inbox polling".toList) else r4
  let r6 := if jsIncludes lower ( "sheet".toList) || jsIncludes lower ( "spreadsheet".toList) ||
      jsIncludes lower ( "airtable".toList) || jsIncludes lower ( "csv".toList) then
    reqAdd r5 ( "CSV import/export or Google Sheets API".toList) else r5
  let r7 := if jsIncludes lower ( "thumbnail".toList) || jsIncludes lower ( "image".toList) then
    reqAdd r6 ( "Image generation API (Replicate/SDXL)".toList) else r6
  let r8 := if jsIncludes lower ( "invoice".toList) || jsIncludes lower ( "receipt".toList) then
    reqAdd r7 reqPdf else r7
  let r9 := if jsIncludes lower ( "notion".toList) then
    reqAdd r8 ( "Notion API integration".toList) else r8
  let r10 := if jsIncludes lower ( "zapier".toList) then
    reqAdd r9 ( "Zapier webhooks / auth token management".toList) else r9
  r10

/-- Requirements computation of `synthesizeIdea` from `synthesize.ts`
(lines 117–118 and 140–142): the keyword list handed to
`guessRequirements` is the de-duplicated concatenation of the cluster's
top keywords and `HIGHLIGHT_KEYWORDS`, truncated to 15 entries; an empty
requirement list falls back to the generic default list.  The remaining
fields of `AppIdeaDetails` are presentation strings not referenced by any
claim. -/
def synthesizeIdeaRequirements (cluster : IdeaCluster) : List JSStr :=
  let keywords := (jsSetDedup (cluster.topKeywords ++ HIGHLIGHT_KEYWORDS)).take 15
  let requirements := guessRequirements cluster.title keywords
  if requirements.length = 0 then
    [ "CSV import/export".toList, "Basic auth/token store".toList,
      "Scheduled & on-demand runs".toList ]
  else requirements

theorem reqAdd_mem_self (l : List JSStr) (s : JSStr) : s ∈ reqAdd l s := by
  unfold reqAdd
  split
  · rename_i h
    exact List.elem_iff.mp h
  · exact List.mem_append_right l (List.mem_singleton.mpr rfl)

theorem reqAdd_mem_mono (l : List JSStr) (s t : JSStr) (h : s ∈ l) :
    s ∈ reqAdd l t := by
  unfold reqAdd
  split
  · exact h
  · exact List.mem_append_left _ h

theorem mem_jsSetDedup [DecidableEq α] (xs : List α) (kw : α) (h : kw ∈ xs) :
    kw ∈ jsSetDedup xs := by
  induction xs with
  | nil => cases h
  | cons x xs ih =>
    rcases List.mem_cons.mp h with rfl | h2
    · exact List.mem_cons_self _ _
    · by_cases hx : kw = x
      · subst hx; exact List.mem_cons_self _ _
      · exact List.mem_cons_of_mem x
          (List.mem_filter.mpr ⟨ih h2, by simp [hx]⟩)

theorem jsSetDedup_length_le [DecidableEq α] (xs : List α) :
    (jsSetDedup xs).length ≤ xs.length := by
  induction xs with
  | nil => simp [jsSetDedup]
  | cons x xs ih =>
    simp only [jsSetDedup, List.length_cons]
    have := List.length_filter_le (fun y => decide (y ≠ x)) (jsSetDedup xs)
    omega

theorem jsSetDedup_append_pref [DecidableEq α] (xs ys : List α) :
    jsSetDedup xs <+: jsSetDedup (xs ++ ys) := by
  induction xs with
  | nil => exact List.nil_prefix
  | cons x xs ih =>
    simp only [jsSetDedup, List.cons_append]
    obtain ⟨t, ht⟩ := List.IsPrefix.filter (fun y => decide (y ≠ x)) ih
    refine ⟨t, ?_⟩
    rw [List.cons_append, ht]
    rfl

theorem mem_take_of_pref {α : Type u} (p l : List α) (kw : α) (n : ℕ)
    (hp : p <+: l) (hkw : kw ∈ p) (hn : p.length ≤ n) : kw ∈ l.take n := by
  obtain ⟨t, rfl⟩ := hp
  rw [List.take_append_eq_append_take, List.take_of_length_le hn]
  exact List.mem_append_left _ hkw

theorem mem_take_dedup_append [DecidableEq α] (xs ys : List α) (kw : α)
    (n : ℕ) (hkw : kw ∈ xs) (hlen : xs.length ≤ n) :
    kw ∈ (jsSetDedup (xs ++ ys)).take n :=
  mem_take_of_pref _ _ _ _ (jsSetDedup_append_pref xs ys)
    (mem_jsSetDedup xs kw hkw) ((jsSetDedup_length_le xs).trans hlen)

theorem jsIncludes_append_left (s t p : JSStr) (h : jsIncludes s p = true) :
    jsIncludes (s ++ t) p = true := by
  rcases (jsIncludes_iff s p).mp h with ⟨pre, post, rfl⟩
  exact (jsIncludes_iff _ _).mpr ⟨pre, post ++ t, by simp⟩

theorem jsIncludes_append_right (s t p : JSStr) (h : jsIncludes t p = true) :
    jsIncludes (s ++ t) p = true := by
  rcases (jsIncludes_iff t p).mp h with ⟨pre, post, rfl⟩
  exact (jsIncludes_iff _ _).mpr ⟨s ++ pre, post, by simp⟩

theorem mem_ite_reqAdd (c : Prop) [Decidable c] (l : List JSStr) (s t : JSStr)
    (h : s ∈ l) : s ∈ (if c then reqAdd l t else l) := by
  split
  · exact reqAdd_mem_mono l s t h
  · exact h

theorem guessRequirements_pdf (title : JSStr) (keywords : List JSStr)
    (h : jsIncludes (jsLower (title ++ ' ' :: jsJoin [' '] keywords))
      ( "invoice".toList) = true) :
    reqPdf ∈ guessRequirements title keywords := by
  unfold guessRequirements
  generalize hGen : jsLower (title ++ ' ' :: jsJoin [' '] keywords) = L at h ⊢
  simp only [h, Bool.true_or, eq_self_iff_true, if_true]
  apply mem_ite_reqAdd
  apply mem_ite_reqAdd
  exact reqAdd_mem_self _ _

/-- C9: any `IdeaCluster` whose title or top keywords mention both
`invoice` and `pdf` (as substrings of the lower-cased text, the matching
`guessRequirements` itself performs) receives a PDF-related requirement
string in its synthesized requirements list.  The hypothesis
`topKeywords.length ≤ 15` reflects the engine's own invariant — clusters
carry at most 5 top keywords — and guarantees no top keyword is cut off by
the 15-entry truncation in `synthesizeIdea`. -/
theorem synthesizeIdea_invoice_pdf_requirement (cluster : IdeaCluster)
    (hlen : cluster.topKeywords.length ≤ 15)
    (hinv : jsIncludes (jsLower cluster.title) ( "invoice".toList) = true ∨
      ∃ kw ∈ cluster.topKeywords, jsIncludes (jsLower kw) ( "invoice".toList) = true)
    (hpdf : jsIncludes (jsLower cluster.title) ( "pdf".toList) = true ∨
      ∃ kw ∈ cluster.topKeywords, jsIncludes (jsLower kw) ( "pdf".toList) = true) :
    ∃ r ∈ synthesizeIdeaRequirements cluster,
      jsIncludes (jsLower r) ( "pdf".toList) = true := by
  have hcomb : jsIncludes (jsLower (cluster.title ++ ' ' :: jsJoin [' ']
      ((jsSetDedup (cluster.topKeywords ++ HIGHLIGHT_KEYWORDS)).take 15)))
      ( "invoice".toList) = true := by
    rcases hinv with h | ⟨kw, hkw, h⟩
    · have hsplit : jsLower (cluster.title ++ ' ' :: jsJoin [' ']
          ((jsSetDedup (cluster.topKeywords ++ HIGHLIGHT_KEYWORDS)).take 15)) =
          jsLower cluster.title ++ jsLower (' ' :: jsJoin [' ']
            ((jsSetDedup (cluster.topKeywords ++ HIGHLIGHT_KEYWORDS)).take 15)) := by
        simp [jsLower]
      rw [hsplit]
      exact jsIncludes_append_left _ _ _ h
    · have hkw15 : kw ∈ (jsSetDedup (cluster.topKeywords ++ HIGHLIGHT_KEYWORDS)).take 15 :=
        mem_take_dedup_append _ _ _ _ hkw hlen
      obtain ⟨pre, post, hj⟩ := jsJoin_decomp [' '] _ kw hkw15
      rw [hj]
      have hsplit : jsLower (cluster.title ++ ' ' :: (pre ++ kw ++ post)) =
          (jsLower (cluster.title ++ ' ' :: pre) ++ jsLower kw) ++ jsLower post := by
        simp [jsLower, List.append_assoc]
      rw [hsplit]
      exact jsIncludes_append_left _ _ _ (jsIncludes_append_right _ _ _ h)
  have hreq := guessRequirements_pdf cluster.title _ hcomb
  have hexpand : synthesizeIdeaRequirements cluster =
      if (guessRequirements cluster.title
          ((jsSetDedup (cluster.topKeywords ++ HIGHLIGHT_KEYWORDS)).take 15)).length = 0 then
        [ "CSV import/export".toList, "Basic auth/token store".toList,
          "Scheduled & on-demand runs".toList ]
      else guessRequirements cluster.title
        ((jsSetDedup (cluster.topKeywords ++ HIGHLIGHT_KEYWORDS)).take 15) := rfl
  have hne : ¬ ((guessRequirements cluster.title
      ((jsSetDedup (cluster.topKeywords ++ HIGHLIGHT_KEYWORDS)).take 15)).length = 0) := by
    intro h0
    rw [List.length_eq_zero] at h0
    rw [h0] at hreq
    cases hreq
  refine ⟨reqPdf, ?_, by decide⟩
  rw [hexpand, if_neg hne]
  exact hreq

/-- Concrete cluster for the C9 witness: title mentions both invoice and
pdf, no top keywords. -/
noncomputable def c9Cluster : IdeaCluster :=
  { id := [], title := "Invoice to pdf".toList, canonical := [], phrases := [],
    posts := [], score := 0, postsCount := 0, subsCount := 0, upvotesSum := 0,
    commentsSum := 0, trend := [], trendSlope := 0, topKeywords := [],
    sampleSnippet := [] }

/-- C9, witness: the theorem applied to the concrete cluster whose title is
`"Invoice to pdf"`. -/
theorem synthesizeIdea_invoice_pdf_requirement_witness :
    ∃ r ∈ synthesizeIdeaRequirements c9Cluster,
      jsIncludes (jsLower r) ( "pdf".toList) = true :=
  synthesizeIdea_invoice_pdf_requirement c9Cluster (by decide)
    (Or.inl (by decide)) (Or.inl (by decide))
